import Mathlib

/-!
# The log-retrieval pipeline of `opensearch.go`

A shallow embedding of the query construction (`RunSearch`, `OpensearchTemplate`),
of the per-record loop of `getOpenSearch` (ignore rules, line rendering, grouping)
and of the tag annotation (`addEmoji`), with the properties proved about them.

Conventions of the embedding.
* A Go `string` is a `List Char`: the sequence of its runes (valid UTF-8 text).
* A Go `map[string]V` is an association list with distinct keys; reading a missing
  key gives the zero value, as in Go.
* A run that stops early is an `Except.error`: `Failure.fatal` for `log.Fatal` with its
  message, `Failure.panic` for a run-time panic.
* Functions of the Go standard library are modelled next to their first use. The
  rune case table behind `strings.ToLower` is library data and is a parameter
  (`toLower`); `asciiToLower` is its restriction to ASCII.
-/

namespace Opensearch

/-- A Go string, as the list of its runes. -/
abbrev Str := List Char

/-! ## Standard-library functions used by the source -/

/-- `strings.Contains(s, substr)`: `substr` occurs in `s` as a contiguous block. -/
def strings.Contains : Str → Str → Bool
  | [], substr => substr.isEmpty
  | c :: cs, substr => substr.isPrefixOf (c :: cs) || strings.Contains cs substr

/-- `strings.ToLower(s)`: every rune mapped through `unicode.ToLower`, given here as
the parameter `toLower`. -/
def strings.ToLower (toLower : Char → Char) (s : Str) : Str := s.map toLower

/-- The restriction of `unicode.ToLower` to ASCII: `A` to `Z` are moved to `a` to `z`,
every other rune is kept. -/
def asciiToLower (c : Char) : Char :=
  if 65 ≤ c.toNat ∧ c.toNat ≤ 90 then Char.ofNat (c.toNat + 32) else c

/-- `unicode.IsSpace`: the runes with the Unicode White_Space property. -/
def unicode.IsSpace (c : Char) : Bool :=
  let n := c.toNat
  (9 ≤ n && n ≤ 13) || n == 32 || n == 0x85 || n == 0xA0 || n == 0x1680 ||
  (0x2000 ≤ n && n ≤ 0x200a) || n == 0x2028 || n == 0x2029 || n == 0x202f ||
  n == 0x205f || n == 0x3000

/-- `strings.TrimSpace(s)`: leading and trailing white space removed. -/
def strings.TrimSpace (s : Str) : Str :=
  ((s.dropWhile unicode.IsSpace).reverse.dropWhile unicode.IsSpace).reverse

/-- `strings.Split(s, sep)` for a separator of one rune: the pieces of `s` between the
occurrences of `sep`; always at least one piece. -/
def strings.Split : Str → Char → List Str
  | [], _ => [[]]
  | c :: cs, sep =>
    if c = sep then [] :: strings.Split cs sep
    else
      match strings.Split cs sep with
      | [] => [[c]]
      | p :: ps => (c :: p) :: ps

/-- `strings.Replace(s, old, new, 1)` for `old` and `new` of one rune each: the first
occurrence of `old` replaced. -/
def strings.Replace1 : Str → Char → Char → Str
  | [], _, _ => []
  | c :: cs, old, new => if c = old then new :: cs else c :: strings.Replace1 cs old new

/-- The verb `%-Ns` of `fmt.Sprintf`: the string padded with spaces on the right up to
`width` runes. -/
def padRight (width : Nat) (s : Str) : Str :=
  s ++ List.replicate (width - s.length) ' '

/-! ## Data model -/

/-- The `LogsIgnore` rule; the field `Type` of the source is `Typ` here. -/
structure LogsIgnore where
  Name : Str := []
  Typ : Str := []
  Msg : Str := []
  deriving DecidableEq, Repr

/-- The fields of a hit's `_source` that `getOpenSearch` reads. -/
structure Source where
  Host : Str := []
  Flty : Str := []
  Mnemonic : Str := []
  Message : Str := []
  Hosttimestamp : Str := []
  deriving DecidableEq, Repr

/-! ## The ignore-rule loop of `getOpenSearch` -/

/-- The counter `cntNull` of one loop iteration: the number of non-empty criteria. -/
def cntNull (li : LogsIgnore) : Nat :=
  let n := 0
  let n := if li.Name ≠ [] then n + 1 else n
  let n := if li.Typ ≠ [] then n + 1 else n
  let n := if li.Msg ≠ [] then n + 1 else n
  n

/-- The counter `cntTrue` of one loop iteration: the number of non-empty criteria
found in the record. -/
def cntTrue (toLower : Char → Char) (li : LogsIgnore) (v : Source) : Nat :=
  let n := 0
  let n := if li.Name ≠ [] ∧ strings.Contains (strings.ToLower toLower v.Flty)
      (strings.ToLower toLower (strings.TrimSpace li.Name)) = true then n + 1 else n
  let n := if li.Typ ≠ [] ∧ strings.Contains (strings.ToLower toLower v.Mnemonic)
      (strings.ToLower toLower (strings.TrimSpace li.Typ)) = true then n + 1 else n
  let n := if li.Msg ≠ [] ∧ strings.Contains (strings.ToLower toLower v.Message)
      (strings.ToLower toLower (strings.TrimSpace li.Msg)) = true then n + 1 else n
  n

/-- One iteration of `for _, li := range cfgIgnoreMsg`, acting on `flgMsgAdd`. -/
def ruleStep (toLower : Char → Char) (ignorelogs : Str) (v : Source)
    (flgMsgAdd : Bool) (li : LogsIgnore) : Bool :=
  if cntNull li = cntTrue toLower li v ∧ ignorelogs = "yes".toList then false else flgMsgAdd

/-- The value of `flgMsgAdd` after the rule loop; `ignorelogs` is `cfgApp["ignorelogs"]`. -/
def ruleLoop (toLower : Char → Char) (cfgIgnoreMsg : List LogsIgnore) (ignorelogs : Str)
    (v : Source) : Bool :=
  cfgIgnoreMsg.foldl (ruleStep toLower ignorelogs v) true


/-! ## Go maps and failures -/

/-- How a run of the program can stop early: `log.Fatal` with its message, or a
run-time panic (an index out of range). -/
inductive Failure
  | fatal (msg : Str)
  | panic
  deriving DecidableEq, Repr

/-- A Go `map[string]V`: an association list. -/
abbrev GoMap (V : Type) := List (Str × V)

/-- The read `m[k]`: the value stored under `k`, or the zero value `zero` of the type. -/
def GoMap.index {V : Type} (zero : V) (m : GoMap V) (k : Str) : V :=
  match m with
  | [] => zero
  | (k', x) :: rest => if k' = k then x else GoMap.index zero rest k

/-- The write `m[k] = x`. -/
def GoMap.set {V : Type} (m : GoMap V) (k : Str) (x : V) : GoMap V :=
  match m with
  | [] => [(k, x)]
  | (k', y) :: rest => if k' = k then (k, x) :: rest else (k', y) :: GoMap.set rest k x

/-- The keys of a map. -/
def GoMap.keys {V : Type} (m : GoMap V) : List Str := m.map Prod.fst

/-- The slice index `xs[i]`, which panics when `i` is out of range. -/
def sliceIndex (xs : List Str) (i : Nat) : Except Failure Str :=
  match xs[i]? with
  | some x => .ok x
  | none => .error .panic

/-! ## Regular expressions: the fragment of RE2 syntax the source's patterns use -/

/-- One position of a pattern. -/
inductive Atom
  /-- A literal rune, matched exactly. -/
  | lit (c : Char)
  /-- A literal rune under the flag `(?i)`. -/
  | fold (c : Char)
  /-- The class `\s`. -/
  | perlSpace
  deriving DecidableEq, Repr

/-- The orbit of an ASCII rune under `unicode.SimpleFold`: a letter and its other
case, with U+017F (long s) for `s` and U+212A (Kelvin sign) for `k`. -/
def foldOrbit (c : Char) : List Char :=
  let n := c.toNat
  let extra := if n = 115 ∨ n = 83 then [Char.ofNat 0x17F]
    else if n = 107 ∨ n = 75 then [Char.ofNat 0x212A] else []
  if 97 ≤ n ∧ n ≤ 122 then c :: Char.ofNat (n - 32) :: extra
  else if 65 ≤ n ∧ n ≤ 90 then c :: Char.ofNat (n + 32) :: extra
  else [c]

/-- The runes an atom accepts; `\s` is `[\t\n\f\r ]`. -/
def Atom.accepts : Atom → Char → Bool
  | .lit c, x => x == c
  | .fold c, x => (foldOrbit c).contains x
  | .perlSpace, x => x.toNat == 9 || x.toNat == 10 || x.toNat == 12 || x.toNat == 13 ||
      x.toNat == 32

/-- A literal of the pattern, under the flag `(?i)` or not. -/
def literalAtom (foldCase : Bool) (c : Char) : Atom :=
  if foldCase then .fold c else .lit c

/-- One alternative of a pattern: literals and the escape `\s`. -/
def parseSeq (foldCase : Bool) : Str → List Atom
  | [] => []
  | [c] => [literalAtom foldCase c]
  | c :: d :: rest =>
    if c.toNat = 92 ∧ d.toNat = 115 then Atom.perlSpace :: parseSeq foldCase rest
    else literalAtom foldCase c :: parseSeq foldCase (d :: rest)

/-- `regexp.Compile` on the fragment: an optional leading `(?i)`, then alternatives
separated by `|`. -/
def regexp.Compile (r : Str) : List (List Atom) :=
  if "(?i)".toList.isPrefixOf r then (strings.Split (r.drop 4) '|').map (parseSeq true)
  else (strings.Split r '|').map (parseSeq false)

/-- The alternative `alt` matches at the start of `s`. -/
def matchHere : List Atom → Str → Bool
  | [], _ => true
  | _ :: _, [] => false
  | a :: alt, c :: cs => a.accepts c && matchHere alt cs

/-- Some alternative matches at some position of `s` (an unanchored search). -/
def matchAnywhere (alts : List (List Atom)) : Str → Bool
  | [] => alts.any (fun alt => matchHere alt [])
  | c :: cs => alts.any (fun alt => matchHere alt (c :: cs)) || matchAnywhere alts cs

/-- `checkRegex(r, s)`: `regexp.MatchString(r, s)`, for the patterns of the source
(none of them fails to compile). -/
def checkRegex (r : Str) (s : Str) : Bool := matchAnywhere (regexp.Compile r) s

/-! ## `addEmoji` -/

/-- The map literal `emoji` of `addEmoji`, with the strings of the source file. -/
def emoji : GoMap Str :=
  [ ("ssh".toList, "\uF8FF\u00FC\u00A7\u00F8".toList),
    ("down".toList, "\uF8FF\u00FC\u00EB\u00E9".toList),
    ("up".toList, "\uF8FF\u00FC\u00EB\u00E7".toList),
    ("ntp".toList, "\uF8FF\u00FC\u00EF\u00F2".toList),
    ("signal".toList, "\uF8FF\u00FC\u00EC\u2202".toList),
    ("default".toList, "\uF8FF\u00FC\u00A7\u2211".toList),
    ("ospf".toList, "\uF8FF\u00FC\u00EA\u2022".toList),
    ("bgp".toList, "\uF8FF\u00FC\u00B6\u00E2".toList),
    ("conf".toList, "\uF8FF\u00FC\u00F4\u00E8".toList) ]

/-- The value of `emoji_line` before the default is applied: the tags of the patterns
that match `j`, in the order of the `if` statements. -/
def emojiKeywords (j : Str) : Str :=
  let emoji_line : Str := []
  let emoji_line := if checkRegex "(?i)\\sdown".toList j then
    emoji_line ++ GoMap.index [] emoji "down".toList else emoji_line
  let emoji_line := if checkRegex "(?i)\\sup".toList j then
    emoji_line ++ GoMap.index [] emoji "up".toList else emoji_line
  let emoji_line := if checkRegex "(?i)ssh".toList j then
    emoji_line ++ GoMap.index [] emoji "ssh".toList else emoji_line
  let emoji_line := if checkRegex "(?i)bgp".toList j then
    emoji_line ++ GoMap.index [] emoji "bgp".toList else emoji_line
  let emoji_line := if checkRegex "(?i)ntp".toList j then
    emoji_line ++ GoMap.index [] emoji "ntp".toList else emoji_line
  let emoji_line := if checkRegex "(?i)commit|config_i".toList j then
    emoji_line ++ GoMap.index [] emoji "conf".toList else emoji_line
  let emoji_line := if checkRegex "(?i)low_rx_power|signal".toList j then
    emoji_line ++ GoMap.index [] emoji "signal".toList else emoji_line
  emoji_line

/-- The final value of `emoji_line` for the line `j`. -/
def emojiLine (j : Str) : Str :=
  let emoji_line := emojiKeywords j
  if emoji_line = [] then emoji_line ++ GoMap.index [] emoji "default".toList else emoji_line

/-- The line appended to `lg_emoji[i]`: `fmt.Sprintf("%-2s %-s", emoji_line, j)`. -/
def emojiSprintf (j : Str) : Str :=
  padRight 2 (emojiLine j) ++ " ".toList ++ padRight 0 j

/-- The function `addEmoji`; the map `lg` is ranged over in the order of its list. -/
def addEmoji (lg : GoMap (List Str)) : GoMap (List Str) :=
  lg.foldl (fun lg_emoji entry =>
    entry.2.foldl (fun acc j =>
      GoMap.set acc entry.1 (GoMap.index [] acc entry.1 ++ [emojiSprintf j])) lg_emoji) []

/-! ## The per-record loop of `getOpenSearch` -/

/-- The fields of `ConfigHosts`. -/
structure ConfigHosts where
  Name : Str := []
  Hostname : Str := []
  Groups : List Str := []
  IPv4 : Str := []
  deriving DecidableEq, Repr

/-- The header and body of a line:
`fmt.Sprintf("\033[91m%-20s %-10s %-20s\033[0m\n%-s\n", ts, flty, mnemonic, body)`. -/
def lineSprintf (ts flty mnemonic body : Str) : Str :=
  "\x1b[91m".toList ++ padRight 20 ts ++ " ".toList ++ padRight 10 flty ++ " ".toList ++
    padRight 20 mnemonic ++ "\x1b[0m\n".toList ++ padRight 0 body ++ "\n".toList

/-- The body of the line of a record whose origin timestamp is present: field 1 of the
message split at `;` when the message contains `CID=0x`, the message otherwise. -/
def lineBody (v : Source) : Except Failure Str :=
  if strings.Contains v.Message "CID=0x".toList then
    sliceIndex (strings.Split v.Message ';') 1
  else .ok v.Message

/-- The value of `sMsg` for one hit. -/
def renderLine (v : Source) : Except Failure Str := do
  let hstTimeStamp ← sliceIndex (strings.Split v.Hosttimestamp '.') 0
  let sMsg := v.Message ++ "\n".toList
  if hstTimeStamp ≠ [] then
    let body ← lineBody v
    pure (lineSprintf (strings.Replace1 hstTimeStamp 'T' ' ')
      v.Flty v.Mnemonic body)
  else pure sMsg

/-- The configuration read by the loop: the rune case table, `cfgHostIP`,
`cfgIgnoreMsg` and `cfgApp["ignorelogs"]`. -/
structure LoopConfig where
  toLower : Char → Char
  cfgHostIP : GoMap ConfigHosts := []
  cfgIgnoreMsg : List LogsIgnore := []
  ignorelogs : Str := []

/-- The group key of a hit: `cfgHostIP[v.Source.Host].Name`. -/
def hstName (cfg : LoopConfig) (v : Source) : Str :=
  (GoMap.index ({} : ConfigHosts) cfg.cfgHostIP v.Host).Name

/-- The flag `flgMsgAdd` of a hit after the rule loop. -/
def flgMsgAdd (cfg : LoopConfig) (v : Source) : Bool :=
  ruleLoop cfg.toLower cfg.cfgIgnoreMsg cfg.ignorelogs v

/-- The body of `for _, v := range dt.Hits.Hits`, acting on `msgByHost`. -/
def hitStep (cfg : LoopConfig) (msgByHost : GoMap (List Str)) (v : Source) :
    Except Failure (GoMap (List Str)) := do
  let name := hstName cfg v
  let keep := flgMsgAdd cfg v
  let sMsg ← renderLine v
  if keep then
    pure (GoMap.set msgByHost name (GoMap.index [] msgByHost name ++ [sMsg]))
  else pure msgByHost

/-- The map `msgByHost` after the loop over the hits. -/
def msgByHostLoop (cfg : LoopConfig) (hits : List Source) : Except Failure (GoMap (List Str)) :=
  hits.foldlM (hitStep cfg) []

/-- The part of `getOpenSearch` after the response is decoded: the grouped lines handed
to the boxes, `addEmoji(msgByHost)`. -/
def getOpenSearch (cfg : LoopConfig) (hits : List Source) : Except Failure (GoMap (List Str)) := do
  let msgByHost ← msgByHostLoop cfg hits
  pure (addEmoji msgByHost)

/-- The number of lines over all groups of a map. -/
def totalLines (m : GoMap (List Str)) : Nat := (m.map (fun e => e.2.length)).sum

/-! ## `OpensearchTemplate` and `RunSearch` -/

/-- The struct `SearchQuery`; the field `Sort` of the source is `SortOrder` here. -/
structure SearchQuery where
  TermHosts : List Str := []
  Size : Str := []
  TermMessage : Str := []
  Days : Str := []
  Minutes : Str := []
  Test : List Str := []
  SortOrder : Str := []
  DateBegin : Str := []
  DateEnd : Str := []
  DateFormat : Str := []
  deriving DecidableEq, Repr

/-- The string fields of `SearchQuery` that the template reads. -/
inductive Field
  | Size | TermMessage | Days | Minutes | SortOrder | DateBegin | DateEnd | DateFormat
  deriving DecidableEq, Repr

/-- The value `.F` of a field in the template. -/
def SearchQuery.field (qr : SearchQuery) : Field → Str
  | .Size => qr.Size
  | .TermMessage => qr.TermMessage
  | .Days => qr.Days
  | .Minutes => qr.Minutes
  | .SortOrder => qr.SortOrder
  | .DateBegin => qr.DateBegin
  | .DateEnd => qr.DateEnd
  | .DateFormat => qr.DateFormat

/-- A digit of the lower-case hexadecimal alphabet of `encoding/json`. -/
def hexDigit (n : Nat) : Char := "0123456789abcdef".toList.getD n (Char.ofNat 48)

/-- The encoding of one rune inside a JSON string by `json.Marshal` (HTML escaping
on; `\b` and `\f` in their short form). -/
def jsonEscapeRune (c : Char) : Str :=
  let n := c.toNat
  if n = 34 then "\\\"".toList
  else if n = 92 then "\\\\".toList
  else if n = 8 then "\\b".toList
  else if n = 12 then "\\f".toList
  else if n = 10 then "\\n".toList
  else if n = 13 then "\\r".toList
  else if n = 9 then "\\t".toList
  else if n < 32 ∨ n = 60 ∨ n = 62 ∨ n = 38 then
    "\\u00".toList ++ [hexDigit (n / 16), hexDigit (n % 16)]
  else if n = 0x2028 then "\\u2028".toList
  else if n = 0x2029 then "\\u2029".toList
  else [c]

/-- `json.Marshal` of a string. -/
def jsonString (s : Str) : Str :=
  "\"".toList ++ s.foldr (fun c acc => jsonEscapeRune c ++ acc) [] ++ "\"".toList

/-- `sliceMarshal(x)`: `json.Marshal` of a slice of strings; the nil slice gives `null`. -/
def sliceMarshal (x : List Str) : Str :=
  match x with
  | [] => "null".toList
  | _ :: _ => "[".toList ++ ",".toList.intercalate (x.map jsonString) ++ "]".toList

/-- A piece of template without control structure. -/
inductive Piece
  /-- Literal text. -/
  | text (s : Str)
  /-- Literal text followed by an action that opens with the trim marker. -/
  | textTrim (s : Str)
  /-- The action that prints a field. -/
  | print (f : Field)
  /-- The action that prints `sliceMarshal .TermHosts`. -/
  | printHosts
  deriving DecidableEq, Repr

/-- A node of the parsed template. -/
inductive Node
  /-- Text or a printing action. -/
  | piece (p : Piece)
  /-- The block `if .F ... end` on a string field: taken when the field is not empty. -/
  | ifField (f : Field) (body : List Piece)
  /-- The block `if .TermHosts ... else ... end`: the first branch when the slice is not
  empty. -/
  | ifHosts (thenBody elseBody : List Piece)
  deriving DecidableEq, Repr

/-- The white space a trim marker removes: space, tab, carriage return, newline. -/
def isTrimSpace (c : Char) : Bool :=
  c.toNat == 32 || c.toNat == 9 || c.toNat == 13 || c.toNat == 10

/-- The text left of a trim marker, with its trailing white space removed. -/
def trimRightSpace (s : Str) : Str := (s.reverse.dropWhile isTrimSpace).reverse

/-- The output of a piece. -/
def Piece.exec (qr : SearchQuery) : Piece → Str
  | .text s => s
  | .textTrim s => trimRightSpace s
  | .print f => qr.field f
  | .printHosts => sliceMarshal qr.TermHosts

/-- The output of a list of pieces. -/
def execPieces (qr : SearchQuery) (ps : List Piece) : Str :=
  ps.foldr (fun p acc => p.exec qr ++ acc) []

/-- The output of a node. -/
def Node.exec (qr : SearchQuery) : Node → Str
  | .piece p => p.exec qr
  | .ifField f body => if qr.field f ≠ [] then execPieces qr body else []
  | .ifHosts thenBody elseBody =>
    if qr.TermHosts.length ≠ 0 then execPieces qr thenBody else execPieces qr elseBody

/-- `tmp.Execute(&tpl, qr)`: the text written for a template. -/
def execute (t : List Node) (qr : SearchQuery) : Str :=
  t.foldr (fun n acc => n.exec qr ++ acc) []

/-- The template up to the opening bracket of the `"filter"` array. -/
def templateHead : List Node :=
  [ .piece (.text "\x7b\n\t\"size\": ".toList),
    .piece (.print .Size),
    .piece (.textTrim ",\n\t\"query\": \x7b\n\t  \"bool\": \x7b\n\t\t\"must\": \x7b\n\t".toList),
    .ifHosts
      [ .text "\n\t\t  \"terms\": \x7b\"host\": ".toList,
        .printHosts,
        .textTrim " \x7d\n\t".toList ]
      [ .textTrim "\n\t\t  \"match_all\": \x7b\x7d\n\t".toList ],
    .piece (.textTrim "\n\t\t\x7d,\n\t\t\"filter\": [\n\t".toList) ]

/-- The four blocks between the brackets of the `"filter"` array. -/
def templateFilter : List Node :=
  [ .ifField .TermMessage
      [ .text "\n\t\x7b\"simple_query_string\": \x7b\n\t\t\"query\": \"".toList,
        .print .TermMessage,
        .textTrim
          "\",\n\t\t\"fields\": [\"message\"],\n\t\t\"flags\": \"ALL\"\n\t \x7d\x7d,\n\t".toList ],
    .piece (.textTrim "\n\t".toList),
    .ifField .Minutes
      [ .text "\n\t\t  \x7b\"range\": \x7b\"@timestamp\": \x7b\"gte\": \"now-".toList,
        .print .Minutes,
        .textTrim "m/m\"\x7d\x7d\x7d\n\t".toList ],
    .piece (.textTrim "\n\t".toList),
    .ifField .Days
      [ .text "\n\t\t  \x7b\"range\": \x7b\"@timestamp\": \x7b\"gte\": \"now-".toList,
        .print .Days,
        .textTrim "/d\"\x7d\x7d\x7d\n\t".toList ],
    .piece (.textTrim "\n\t".toList),
    .ifField .DateBegin
      [ .text "\n          \x7b\"range\": \x7b\"@timestamp\": \x7b\"gte\": \"".toList,
        .print .DateBegin,
        .text "\", \"lte\": \"".toList,
        .print .DateEnd,
        .text "\", \"format\": \"".toList,
        .print .DateFormat,
        .textTrim "\", \"time_zone\": \"+03:00\" \x7d\x7d\x7d\n\t".toList ] ]

/-- The template from the closing bracket of the `"filter"` array on. -/
def templateTail : List Node :=
  [ .piece (.text ("\n\t\t]\n\t  \x7d\n\t \x7d,\n\t \"sort\": [\n\t\t\x7b\n\t\t  " ++
      "\"@timestamp\": \x7b\n\t\t\t\"order\": \"").toList),
    .piece (.print .SortOrder),
    .piece (.text "\"\n\t\t  \x7d\n\t\t\x7d\n\t  ]\n\t\x7d\n\t".toList) ]

/-- The constant `OpensearchTemplate`, parsed. -/
def OpensearchTemplate : List Node := templateHead ++ templateFilter ++ templateTail

/-- The options read through `viper.GetString`; an option that is not given is empty. -/
structure Options where
  ipaddr : Str := []
  date : Str := []
  time : Str := []
  records : Str := []
  search : Str := []
  deriving DecidableEq, Repr

/-- The block `if viper.GetString("date") != ""` of `RunSearch`, acting on `qr`. -/
def setDate (date : Str) (qr : SearchQuery) : Except Failure SearchQuery := do
  let dtBegEnd := strings.Split date ','
  let begin ← sliceIndex dtBegEnd 0
  let qr := { qr with DateBegin := begin }
  let dateEnd ← if dtBegEnd.length > 1 then sliceIndex dtBegEnd 1 else sliceIndex dtBegEnd 0
  let qr := { qr with DateEnd := dateEnd }
  if checkRegex ":".toList qr.DateBegin then
    if (strings.Split qr.DateBegin ':').length > 2 then
      pure { qr with DateFormat := "dd/MM/yyyy:HH:mm".toList }
    else
      pure { qr with DateFormat := "dd/MM/yyyy:HH".toList }
  else
    pure { qr with DateFormat := "dd/MM/yyyy".toList }

/-- The construction of `qr` in `RunSearch`, from `qr := SearchQuery{}` to
`qr.Size = cfgApp["max_records"]`. -/
def buildQuery (ipHosts : List Str) (cfgApp : GoMap Str) (o : Options) :
    Except Failure SearchQuery := do
  let qr : SearchQuery := {}
  let tr := o.search
  let qr := if o.ipaddr ≠ [] then { qr with TermHosts := strings.Split o.ipaddr ',' }
    else { qr with TermHosts := ipHosts }
  let qr := if tr ≠ [] then { qr with TermMessage := tr } else qr
  let qr ← if o.date ≠ [] then setDate o.date qr else pure qr
  let qr := { qr with SortOrder := GoMap.index [] cfgApp "desc".toList }
  let qr := if checkRegex "d".toList o.time then { qr with Days := o.time }
    else { qr with Minutes := o.time }
  let qr := { qr with Size := GoMap.index [] cfgApp "max_records".toList }
  pure qr

/-- The condition of the first `log.Fatal` of `RunSearch`. -/
def noHosts (ipHosts : List Str) (o : Options) : Prop := ipHosts.length = 0 ∧ o.ipaddr = []

/-- The condition of the second `log.Fatal` of `RunSearch`. -/
def bothWindows (o : Options) : Prop := o.date ≠ [] ∧ o.time ≠ []

instance (ipHosts : List Str) (o : Options) : Decidable (noHosts ipHosts o) := by
  unfold noHosts; infer_instance

instance (o : Options) : Decidable (bothWindows o) := by
  unfold bothWindows; infer_instance

/-- The function `RunSearch` up to the call of `getOpenSearch`: the text of the query
handed over, or the failure that stops the run. -/
def RunSearch (ipHosts : List Str) (cfgApp : GoMap Str) (o : Options) : Except Failure Str :=
  if noHosts ipHosts o then
    .error (.fatal "Need to select hosts, options -i, -g, -a".toList)
  else if bothWindows o then
    .error (.fatal "Need only one option: -t  or -d".toList)
  else do
    let cfgApp := if o.records ≠ [] then GoMap.set cfgApp "max_records".toList o.records
      else cfgApp
    let qr ← buildQuery ipHosts cfgApp o
    pure (execute OpensearchTemplate qr)

/-! ## The clauses of the `"filter"` array, as the specification words them -/

/-- The free-text clause on the message field, with the comma that follows it. -/
def termClause (term : Str) : Str :=
  "\n\t\x7b\"simple_query_string\": \x7b\n\t\t\"query\": \"".toList ++ term ++
    "\",\n\t\t\"fields\": [\"message\"],\n\t\t\"flags\": \"ALL\"\n\t \x7d\x7d,".toList

/-- The minute-aligned relative range clause for the window `t`. -/
def minuteClause (t : Str) : Str :=
  "\x7b\"range\": \x7b\"@timestamp\": \x7b\"gte\": \"now-".toList ++ t ++
    "m/m\"\x7d\x7d\x7d".toList

/-- The day-aligned relative range clause for the window `t`. -/
def dayClause (t : Str) : Str :=
  "\x7b\"range\": \x7b\"@timestamp\": \x7b\"gte\": \"now-".toList ++ t ++
    "/d\"\x7d\x7d\x7d".toList

/-- The absolute range clause. -/
def dateClause (dateBegin dateEnd dateFormat : Str) : Str :=
  "\x7b\"range\": \x7b\"@timestamp\": \x7b\"gte\": \"".toList ++ dateBegin ++
    "\", \"lte\": \"".toList ++ dateEnd ++ "\", \"format\": \"".toList ++ dateFormat ++
    "\", \"time_zone\": \"+03:00\" \x7d\x7d\x7d".toList

/-- The white space written in front of a relative range clause. -/
def clauseIndent : Str := "\n\t\t  ".toList

/-- The white space written in front of the absolute range clause. -/
def dateIndent : Str := "\n          ".toList

/-- The text from the closing bracket of the `"filter"` array up to the sort order. -/
def filterClose : Str :=
  ("\n\t\t]\n\t  \x7d\n\t \x7d,\n\t \"sort\": [\n\t\t\x7b\n\t\t  " ++
    "\"@timestamp\": \x7b\n\t\t\t\"order\": \"").toList

/-! ## Line bodies and groups, as the specification words them -/

/-- The portion of a message after its first semicolon. -/
def afterFirstSemicolon (message : Str) : Str :=
  (message.dropWhile (fun c => decide (c ≠ ';'))).drop 1

/-- The lines of the group `k`: the rendered lines of the hits that are not suppressed
and whose host address maps to the display name `k`, in the order of the result set. -/
def linesFor (cfg : LoopConfig) (k : Str) (hits : List Source) : List Str :=
  hits.filterMap (fun v =>
    if flgMsgAdd cfg v = true ∧ hstName cfg v = k then (renderLine v).toOption else none)

/-! ## Sample records -/

/-- A record with an origin timestamp whose message has `CID=0x` and no semicolon. -/
def hitNoSemicolon : Source :=
  { Host := "10.0.0.1".toList
    Flty := "daemon".toList
    Mnemonic := "LINK".toList
    Message := "CID=0x80fc0001 link down".toList
    Hosttimestamp := "2024-01-02T10:00:00.123".toList }

/-- A record with an origin timestamp whose message has `CID=0x` and two semicolons. -/
def hitTwoSemicolons : Source :=
  { Host := "10.0.0.1".toList
    Flty := "daemon".toList
    Mnemonic := "LINK".toList
    Message := "CID=0x80fc0001;Port 1;state down".toList
    Hosttimestamp := "2024-01-02T10:00:00.123".toList }

/-- A record with an origin timestamp and a plain message. -/
def hitPlain : Source :=
  { Host := "10.0.0.2".toList
    Flty := "kernel".toList
    Mnemonic := "OSPF".toList
    Message := "neighbor up".toList
    Hosttimestamp := "2024-01-02T10:00:01.456".toList }

/-! ## The tag of a line, as the specification words it -/

/-- The patterns of `addEmoji` with the key of their tag, in the order of evaluation. -/
def emojiPatterns : List (Str × Str) :=
  [ ("(?i)\\sdown".toList, "down".toList),
    ("(?i)\\sup".toList, "up".toList),
    ("(?i)ssh".toList, "ssh".toList),
    ("(?i)bgp".toList, "bgp".toList),
    ("(?i)ntp".toList, "ntp".toList),
    ("(?i)commit|config_i".toList, "conf".toList),
    ("(?i)low_rx_power|signal".toList, "signal".toList) ]

/-- The concatenation, in the order of `emojiPatterns`, of the tags of the patterns that
match the line. -/
def matchingTags (j : Str) : Str :=
  ((emojiPatterns.filter (fun p => checkRegex p.1 j)).map
    (fun p => GoMap.index [] emoji p.2)).foldr (fun t acc => t ++ acc) []

/-- The default tag. -/
def defaultTag : Str := GoMap.index [] emoji "default".toList

/-- The block `t` is accepted by the alternative `alt`, position by position. -/
def acceptsBlock (alt : List Atom) (t : Str) : Prop :=
  List.Forall₂ (fun a c => a.accepts c = true) alt t

/-! ## Sample configurations -/

/-- Two hosts of the inventory. -/
def sampleHosts : GoMap ConfigHosts :=
  [ ("10.0.0.1".toList, { Name := "r1".toList, Hostname := "r1.lab".toList,
                          IPv4 := "10.0.0.1".toList }),
    ("10.0.0.2".toList, { Name := "r2".toList, Hostname := "r2.lab".toList,
                          IPv4 := "10.0.0.2".toList }) ]

/-- The ignore flag off, with a rule that matches `link down` messages. -/
def cfgFlagOff : LoopConfig :=
  { toLower := asciiToLower
    cfgHostIP := sampleHosts
    cfgIgnoreMsg := [{ Msg := "link down".toList }]
    ignorelogs := [] }

/-- The ignore flag on, with a rule that matches `link down` messages. -/
def cfgFlagOn : LoopConfig :=
  { toLower := asciiToLower
    cfgHostIP := sampleHosts
    cfgIgnoreMsg := [{ Msg := "link down".toList }]
    ignorelogs := "yes".toList }

/-- The criterion `crit` of a rule is met by the record field `field`: it is empty, or
its trimmed, lower-cased value occurs in the lower-cased field. -/
def criterionMet (toLower : Char → Char) (crit field : Str) : Prop :=
  crit ≠ [] → strings.ToLower toLower (strings.TrimSpace crit) <:+: strings.ToLower toLower field


/-! # Theorems -/

/-! ## Lemmas on the library functions -/

theorem contains_iff_isInfix (s sub : Str) : strings.Contains s sub = true ↔ sub <:+: s := by
  induction s with
  | nil =>
    cases sub <;> simp [strings.Contains]
  | cons c cs ih =>
    rw [strings.Contains, Bool.or_eq_true, ih, List.isPrefixOf_iff_prefix, List.infix_cons_iff]

theorem split_ne_nil (s : Str) (sep : Char) : strings.Split s sep ≠ [] := by
  induction s with
  | nil => simp [strings.Split]
  | cons c cs ih =>
    unfold strings.Split
    split
    · simp
    · split <;> simp

theorem split_length (s : Str) (sep : Char) :
    (strings.Split s sep).length = s.count sep + 1 := by
  induction s with
  | nil => simp [strings.Split]
  | cons c cs ih =>
    unfold strings.Split
    by_cases h : c = sep
    · subst h
      simp [ih]
    · rw [if_neg h, List.count_cons_of_ne (Ne.symm h), ← ih]
      split
      · next heq => exact absurd heq (split_ne_nil cs sep)
      · next p ps heq => simp [heq]

theorem split_head (s : Str) (sep : Char) :
    (strings.Split s sep)[0]? = some (s.takeWhile (fun c => decide (c ≠ sep))) := by
  induction s with
  | nil => simp [strings.Split]
  | cons c cs ih =>
    unfold strings.Split
    by_cases h : c = sep
    · subst h
      simp
    · rw [if_neg h]
      split
      · next heq => exact absurd heq (split_ne_nil cs sep)
      · next p ps heq =>
        rw [heq] at ih
        simp at ih
        simp [h, ih]

theorem sliceIndex_zero_split (s : Str) (sep : Char) :
    sliceIndex (strings.Split s sep) 0 = .ok (s.takeWhile (fun c => decide (c ≠ sep))) := by
  unfold sliceIndex
  rw [split_head]

theorem sliceIndex_ok (xs : List Str) (i : Nat) (h : i < xs.length) :
    sliceIndex xs i = .ok (xs.get ⟨i, h⟩) := by
  unfold sliceIndex
  rw [List.getElem?_eq_getElem h]
  rfl

theorem sliceIndex_panic (xs : List Str) (i : Nat) (h : xs.length ≤ i) :
    sliceIndex xs i = .error .panic := by
  unfold sliceIndex
  rw [List.getElem?_eq_none h]

theorem matchAnywhere_lit (c : Char) (s : Str) :
    matchAnywhere [[Atom.lit c]] s = decide (0 < s.count c) := by
  induction s with
  | nil => simp [matchAnywhere, matchHere]
  | cons x xs ih =>
    simp only [matchAnywhere, List.any_cons, List.any_nil, Bool.or_false, matchHere,
      Bool.and_true, Atom.accepts, ih]
    by_cases h : x = c
    · subst h
      simp
    · have h2 : ¬ c = x := fun e => h e.symm
      simp [h, List.count_cons, h2]

theorem checkRegex_colon (s : Str) :
    checkRegex ":".toList s = decide (0 < s.count ':') := by
  have h : regexp.Compile ":".toList = [[Atom.lit ':']] := by decide
  rw [checkRegex, h, matchAnywhere_lit]

theorem checkRegex_d (s : Str) :
    checkRegex "d".toList s = decide (0 < s.count 'd') := by
  have h : regexp.Compile "d".toList = [[Atom.lit 'd']] := by decide
  rw [checkRegex, h, matchAnywhere_lit]

/-! ## The ignore-rule loop -/

theorem cnt_eq_iff (toLower : Char → Char) (li : LogsIgnore) (v : Source) :
    cntNull li = cntTrue toLower li v ↔
      criterionMet toLower li.Name v.Flty ∧ criterionMet toLower li.Typ v.Mnemonic ∧
        criterionMet toLower li.Msg v.Message := by
  unfold criterionMet
  simp only [← contains_iff_isInfix, cntNull, cntTrue]
  by_cases h1 : li.Name = [] <;> by_cases h2 : li.Typ = [] <;> by_cases h3 : li.Msg = [] <;>
    cases strings.Contains (strings.ToLower toLower v.Flty)
      (strings.ToLower toLower (strings.TrimSpace li.Name)) <;>
    cases strings.Contains (strings.ToLower toLower v.Mnemonic)
      (strings.ToLower toLower (strings.TrimSpace li.Typ)) <;>
    cases strings.Contains (strings.ToLower toLower v.Message)
      (strings.ToLower toLower (strings.TrimSpace li.Msg)) <;>
    simp [h1, h2, h3]

theorem foldl_ruleStep (toLower : Char → Char) (flag : Str) (v : Source)
    (rules : List LogsIgnore) (b : Bool) :
    rules.foldl (ruleStep toLower flag v) b = false ↔
      b = false ∨ ∃ li ∈ rules, cntNull li = cntTrue toLower li v ∧ flag = "yes".toList := by
  induction rules generalizing b with
  | nil => simp
  | cons r rs ih =>
    rw [List.foldl_cons, ih]
    unfold ruleStep
    by_cases h : cntNull r = cntTrue toLower r v ∧ flag = "yes".toList
    · rw [if_pos h]
      exact ⟨fun _ => Or.inr ⟨r, List.mem_cons_self _ _, h⟩, fun _ => Or.inl rfl⟩
    · rw [if_neg h]
      constructor
      · rintro (hb | ⟨li, hli, hc⟩)
        · exact Or.inl hb
        · exact Or.inr ⟨li, List.mem_cons_of_mem _ hli, hc⟩
      · rintro (hb | ⟨li, hli, hc⟩)
        · exact Or.inl hb
        · rcases List.mem_cons.mp hli with rfl | hli
          · exact absurd hc h
          · exact Or.inr ⟨li, hli, hc⟩

/-- C1: the rule loop ends with `flgMsgAdd = false` exactly when the ignore flag is
`"yes"` and some rule of the list has each of its non-empty criteria (trimmed and
lower-cased) occurring in the lower-cased facility, mnemonic and message. -/
theorem ruleLoop_suppresses_iff (toLower : Char → Char) (rules : List LogsIgnore)
    (flag : Str) (v : Source) :
    ruleLoop toLower rules flag v = false ↔
      flag = "yes".toList ∧ ∃ li ∈ rules,
        (li.Name ≠ [] →
          strings.ToLower toLower (strings.TrimSpace li.Name) <:+: strings.ToLower toLower v.Flty) ∧
        (li.Typ ≠ [] →
          strings.ToLower toLower (strings.TrimSpace li.Typ) <:+:
            strings.ToLower toLower v.Mnemonic) ∧
        (li.Msg ≠ [] →
          strings.ToLower toLower (strings.TrimSpace li.Msg) <:+:
            strings.ToLower toLower v.Message) := by
  unfold ruleLoop
  rw [foldl_ruleStep]
  simp only [Bool.true_eq_false, false_or, cnt_eq_iff, criterionMet]
  constructor
  · rintro ⟨li, hli, hc, hf⟩
    exact ⟨hf, li, hli, hc⟩
  · rintro ⟨hf, li, hli, hc⟩
    exact ⟨li, hli, hc, hf⟩

/-- C1, at the inputs named in the claim: with the flag on, the rule with `Type: "BGP"`
suppresses the mnemonic `bgp-down` and not `ospf-up`; a rule with `Name` and `Msg` set
suppresses a record matching both and none matching only one; with the flag off nothing
is suppressed. -/
theorem ruleLoop_suppresses_iff_witness :
    ruleLoop asciiToLower [{ Typ := "BGP".toList }] "yes".toList
        { Mnemonic := "bgp-down".toList } = false ∧
      ruleLoop asciiToLower [{ Typ := "BGP".toList }] "yes".toList
        { Mnemonic := "ospf-up".toList } = true ∧
      ruleLoop asciiToLower [{ Name := "daemon".toList, Msg := "link".toList }] "yes".toList
        { Flty := "daemon".toList, Message := "Link flap".toList } = false ∧
      ruleLoop asciiToLower [{ Name := "daemon".toList, Msg := "link".toList }] "yes".toList
        { Flty := "daemon".toList, Message := "peer reset".toList } = true ∧
      ruleLoop asciiToLower [{ Name := "daemon".toList, Msg := "link".toList }] "yes".toList
        { Flty := "kernel".toList, Message := "Link flap".toList } = true ∧
      ruleLoop asciiToLower [{ Typ := "BGP".toList }] "".toList
        { Mnemonic := "bgp-down".toList } = true :=
  ⟨(ruleLoop_suppresses_iff _ _ _ _).mpr (by decide),
   Bool.eq_true_of_not_eq_false (mt (ruleLoop_suppresses_iff _ _ _ _).mp (by decide)),
   (ruleLoop_suppresses_iff _ _ _ _).mpr (by decide),
   Bool.eq_true_of_not_eq_false (mt (ruleLoop_suppresses_iff _ _ _ _).mp (by decide)),
   Bool.eq_true_of_not_eq_false (mt (ruleLoop_suppresses_iff _ _ _ _).mp (by decide)),
   Bool.eq_true_of_not_eq_false (mt (ruleLoop_suppresses_iff _ _ _ _).mp (by decide))⟩

/-- C2, as stated, fails: with the flag on and no other rule, a record is kept, and
adding the rule without criteria suppresses it. -/
theorem void_rule_counterexample :
    ruleLoop asciiToLower [] "yes".toList
        { Flty := "daemon".toList, Mnemonic := "ospf-up".toList, Message := "peer up".toList }
        = true ∧
      ruleLoop asciiToLower [{ Name := [], Typ := [], Msg := [] }] "yes".toList
        { Flty := "daemon".toList, Mnemonic := "ospf-up".toList, Message := "peer up".toList }
        = false := by
  decide

/-- C2, amended: a rule without criteria matches every record. When the rule list
contains a rule whose `Name`, `Type` and `Msg` are all empty, the loop suppresses the
record exactly when the ignore flag is `"yes"`. -/
theorem void_rule_suppresses_iff_flag (toLower : Char → Char) (rules : List LogsIgnore)
    (flag : Str) (v : Source) (r : LogsIgnore) (hr : r ∈ rules)
    (hName : r.Name = []) (hTyp : r.Typ = []) (hMsg : r.Msg = []) :
    ruleLoop toLower rules flag v = false ↔ flag = "yes".toList := by
  have hcnt : cntNull r = cntTrue toLower r v := by
    rw [cnt_eq_iff]
    exact ⟨fun h => absurd hName h, fun h => absurd hTyp h, fun h => absurd hMsg h⟩
  unfold ruleLoop
  rw [foldl_ruleStep]
  constructor
  · rintro (h | ⟨_, _, _, hf⟩)
    · exact absurd h (by decide)
    · exact hf
  · exact fun hf => Or.inr ⟨r, hr, hcnt, hf⟩

/-- C2, amended, at a concrete input: the rule without criteria, alone in the list,
suppresses a record when the flag is `"yes"`. -/
theorem void_rule_suppresses_iff_flag_witness :
    ruleLoop asciiToLower [{ Name := [], Typ := [], Msg := [] }] "yes".toList
        { Flty := "daemon".toList, Mnemonic := "ospf-up".toList, Message := "peer up".toList }
        = false :=
  (void_rule_suppresses_iff_flag asciiToLower [{ Name := [], Typ := [], Msg := [] }]
    "yes".toList _ { Name := [], Typ := [], Msg := [] } (List.mem_singleton_self _)
    rfl rfl rfl).mpr rfl

/-! ## The query builder -/

theorem dateEnd_ok (xs : List Str) (h : xs ≠ []) :
    ∃ e, (if xs.length > 1 then sliceIndex xs 1 else sliceIndex xs 0) = .ok e := by
  by_cases h1 : xs.length > 1
  · rw [if_pos h1]
    exact ⟨_, sliceIndex_ok xs 1 h1⟩
  · rw [if_neg h1]
    exact ⟨_, sliceIndex_ok xs 0 (List.length_pos.mpr h)⟩

theorem setDate_ok (date : Str) (qr : SearchQuery) :
    ∃ e, setDate date qr = .ok { qr with
      DateBegin := date.takeWhile (fun c => decide (c ≠ ',')),
      DateEnd := e,
      DateFormat :=
        if (date.takeWhile (fun c => decide (c ≠ ','))).count ':' = 0 then
          "dd/MM/yyyy".toList
        else if (date.takeWhile (fun c => decide (c ≠ ','))).count ':' = 1
        then "dd/MM/yyyy:HH".toList
        else "dd/MM/yyyy:HH:mm".toList } := by
  obtain ⟨e, he⟩ := dateEnd_ok (strings.Split date ',') (split_ne_nil _ _)
  refine ⟨e, ?_⟩
  unfold setDate
  by_cases h1 : (strings.Split date ',').length > 1
  · rw [if_pos h1] at he
    simp only [sliceIndex_zero_split, bind, Except.bind, pure, Except.pure, h1, if_true, he]
    simp only [checkRegex_colon, split_length, decide_eq_true_eq]
    generalize (date.takeWhile (fun c => decide (c ≠ ','))).count ':' = n
    rcases n with _ | _ | n <;> simp
  rw [if_neg h1] at he
  simp only [sliceIndex_zero_split, bind, Except.bind, pure, Except.pure, h1, if_false, he]
  simp only [sliceIndex_zero_split, Except.ok.injEq] at he
  subst he
  simp only [checkRegex_colon, split_length, decide_eq_true_eq]
  generalize (date.takeWhile (fun c => decide (c ≠ ','))).count ':' = n
  rcases n with _ | _ | n
  · simp
  · simp
  · simp

theorem buildQuery_ok (ipHosts : List Str) (cfgApp : GoMap Str) (o : Options) :
    ∃ qr, buildQuery ipHosts cfgApp o = .ok qr ∧
      qr.TermHosts = (if o.ipaddr ≠ [] then strings.Split o.ipaddr ',' else ipHosts) ∧
      qr.TermMessage = o.search ∧
      qr.Days = (if checkRegex "d".toList o.time then o.time else []) ∧
      qr.Minutes = (if checkRegex "d".toList o.time then [] else o.time) ∧
      qr.Size = GoMap.index [] cfgApp "max_records".toList ∧
      qr.SortOrder = GoMap.index [] cfgApp "desc".toList ∧
      (o.date = [] → qr.DateBegin = []) ∧
      (o.date ≠ [] →
        qr.DateBegin = o.date.takeWhile (fun c => decide (c ≠ ',')) ∧
        qr.DateFormat =
          if qr.DateBegin.count ':' = 0 then "dd/MM/yyyy".toList
          else if qr.DateBegin.count ':' = 1 then "dd/MM/yyyy:HH".toList
          else "dd/MM/yyyy:HH:mm".toList) := by
  unfold buildQuery
  generalize checkRegex "d".toList o.time = b
  by_cases hd : o.date = []
  · simp only [hd, ne_eq, not_true_eq_false, if_false, bind, Except.bind, pure, Except.pure]
    refine ⟨_, rfl, ?_⟩
    by_cases hi : o.ipaddr = [] <;> by_cases hs : o.search = [] <;> cases b <;> simp [hi, hs]
  · obtain ⟨e, he⟩ := setDate_ok o.date
      (if o.search ≠ [] then
        { (if o.ipaddr ≠ [] then
            { ({} : SearchQuery) with TermHosts := strings.Split o.ipaddr ',' }
          else { ({} : SearchQuery) with TermHosts := ipHosts }) with TermMessage := o.search }
      else
        (if o.ipaddr ≠ [] then
            { ({} : SearchQuery) with TermHosts := strings.Split o.ipaddr ',' }
          else { ({} : SearchQuery) with TermHosts := ipHosts }))
    simp only [ne_eq, hd, not_false_eq_true, if_true, bind, Except.bind, pure, Except.pure] at he ⊢
    rw [he]
    refine ⟨_, rfl, ?_⟩
    by_cases hi : o.ipaddr = [] <;> by_cases hs : o.search = [] <;> cases b <;> simp [hi, hs]

theorem execute_append (t₁ t₂ : List Node) (qr : SearchQuery) :
    execute (t₁ ++ t₂) qr = execute t₁ qr ++ execute t₂ qr := by
  unfold execute
  induction t₁ with
  | nil => rfl
  | cons n ns ih => simp [List.foldr_cons, ih]

theorem execute_OpensearchTemplate (qr : SearchQuery) :
    execute OpensearchTemplate qr =
      execute templateHead qr ++ execute templateFilter qr ++ execute templateTail qr := by
  unfold OpensearchTemplate
  rw [execute_append, execute_append]

theorem execute_templateFilter (qr : SearchQuery) :
    execute templateFilter qr =
      (if qr.TermMessage ≠ [] then termClause qr.TermMessage else []) ++
      ((if qr.Minutes ≠ [] then clauseIndent ++ minuteClause qr.Minutes else []) ++
      ((if qr.Days ≠ [] then clauseIndent ++ dayClause qr.Days else []) ++
      (if qr.DateBegin ≠ [] then
        dateIndent ++ dateClause qr.DateBegin qr.DateEnd qr.DateFormat else []))) := by
  have e1 : trimRightSpace "\n\t".toList = [] := by decide
  have e2 : trimRightSpace
      "\",\n\t\t\"fields\": [\"message\"],\n\t\t\"flags\": \"ALL\"\n\t \x7d\x7d,\n\t".toList =
      "\",\n\t\t\"fields\": [\"message\"],\n\t\t\"flags\": \"ALL\"\n\t \x7d\x7d,".toList := by
    decide
  have e3 : trimRightSpace "m/m\"\x7d\x7d\x7d\n\t".toList = "m/m\"\x7d\x7d\x7d".toList := by
    decide
  have e4 : trimRightSpace "/d\"\x7d\x7d\x7d\n\t".toList = "/d\"\x7d\x7d\x7d".toList := by
    decide
  have e5 : trimRightSpace "\", \"time_zone\": \"+03:00\" \x7d\x7d\x7d\n\t".toList =
      "\", \"time_zone\": \"+03:00\" \x7d\x7d\x7d".toList := by
    decide
  simp only [execute, templateFilter, List.foldr_cons, List.foldr_nil, Node.exec, execPieces,
    Piece.exec, SearchQuery.field, e1, e2, e3, e4, e5, List.append_nil, List.nil_append,
    termClause, minuteClause, dayClause, dateClause, clauseIndent, dateIndent,
    List.append_assoc]
  by_cases h1 : qr.TermMessage = [] <;> by_cases h2 : qr.Minutes = [] <;>
    by_cases h3 : qr.Days = [] <;> by_cases h4 : qr.DateBegin = [] <;>
    simp only [h1, h2, h3, h4, ne_eq, not_true_eq_false, not_false_eq_true, if_true, if_false,
      List.append_nil, List.nil_append, List.append_assoc] <;>
    rfl

theorem execute_templateTail (qr : SearchQuery) :
    execute templateTail qr =
      filterClose ++ qr.SortOrder ++ "\"\n\t\t  \x7d\n\t\t\x7d\n\t  ]\n\t\x7d\n\t".toList := by
  simp [execute, templateTail, Node.exec, Piece.exec, SearchQuery.field, filterClose]

theorem RunSearch_of_valid (ipHosts : List Str) (cfgApp : GoMap Str) (o : Options)
    (h1 : ¬ noHosts ipHosts o) (h2 : ¬ bothWindows o) :
    ∃ qr, buildQuery ipHosts
        (if o.records ≠ [] then GoMap.set cfgApp "max_records".toList o.records else cfgApp) o
        = .ok qr ∧
      RunSearch ipHosts cfgApp o = .ok (execute OpensearchTemplate qr) := by
  obtain ⟨qr, hqr, _⟩ := buildQuery_ok ipHosts
    (if o.records ≠ [] then GoMap.set cfgApp "max_records".toList o.records else cfgApp) o
  refine ⟨qr, hqr, ?_⟩
  unfold RunSearch
  rw [if_neg h1, if_neg h2]
  simp only [bind, Except.bind, pure, Except.pure, hqr]

/-- C4: `RunSearch` stops with a fatal usage error exactly when no host is selected
(`ipHosts` empty and no `ipaddr` option) or both the `date` and the `time` option are
given: with the message of the first guard in the first case, of the second guard in the
second. For every other input it builds the query and renders the template on it. -/
theorem RunSearch_fatal_iff (ipHosts : List Str) (cfgApp : GoMap Str) (o : Options) :
    ((∃ msg, RunSearch ipHosts cfgApp o = .error (.fatal msg)) ↔
      (ipHosts = [] ∧ o.ipaddr = []) ∨ (o.date ≠ [] ∧ o.time ≠ [])) ∧
    ((ipHosts = [] ∧ o.ipaddr = []) →
      RunSearch ipHosts cfgApp o =
        .error (.fatal "Need to select hosts, options -i, -g, -a".toList)) ∧
    (¬ (ipHosts = [] ∧ o.ipaddr = []) → (o.date ≠ [] ∧ o.time ≠ []) →
      RunSearch ipHosts cfgApp o = .error (.fatal "Need only one option: -t  or -d".toList)) ∧
    (¬ ((ipHosts = [] ∧ o.ipaddr = []) ∨ (o.date ≠ [] ∧ o.time ≠ [])) →
      ∃ qr, buildQuery ipHosts
          (if o.records ≠ [] then GoMap.set cfgApp "max_records".toList o.records else cfgApp) o
          = .ok qr ∧
        RunSearch ipHosts cfgApp o = .ok (execute OpensearchTemplate qr)) := by
  have hn : noHosts ipHosts o ↔ (ipHosts = [] ∧ o.ipaddr = []) := by
    unfold noHosts
    rw [List.length_eq_zero]
  have hb : bothWindows o ↔ (o.date ≠ [] ∧ o.time ≠ []) := Iff.rfl
  rw [← hn, ← hb]
  by_cases h1 : noHosts ipHosts o
  · have hr : RunSearch ipHosts cfgApp o =
        .error (.fatal "Need to select hosts, options -i, -g, -a".toList) := by
      unfold RunSearch
      rw [if_pos h1]
    refine ⟨?_, fun _ => hr, fun h => absurd h1 h, fun h => absurd (Or.inl h1) h⟩
    rw [hr]
    exact ⟨fun _ => Or.inl h1, fun _ => ⟨_, rfl⟩⟩
  · by_cases h2 : bothWindows o
    · have hr : RunSearch ipHosts cfgApp o =
          .error (.fatal "Need only one option: -t  or -d".toList) := by
        unfold RunSearch
        rw [if_neg h1, if_pos h2]
      refine ⟨?_, fun h => absurd h h1, fun _ _ => hr, fun h => absurd (Or.inr h2) h⟩
      rw [hr]
      exact ⟨fun _ => Or.inr h2, fun _ => ⟨_, rfl⟩⟩
    · obtain ⟨qr, hqr, hr⟩ := RunSearch_of_valid ipHosts cfgApp o h1 h2
      refine ⟨?_, fun h => absurd h h1, fun _ h => absurd h h2, fun _ => ⟨qr, hqr, hr⟩⟩
      rw [hr]
      constructor
      · rintro ⟨msg, hmsg⟩
        cases hmsg
      · rintro (h | h)
        · exact absurd h h1
        · exact absurd h h2

/-- C4, at concrete inputs: no host and no `ipaddr` is fatal, `date` together with
`time` is fatal, one selected host with a `time` window gives a rendered query. -/
theorem RunSearch_fatal_iff_witness :
    (∃ msg, RunSearch [] [] { time := "30".toList } = .error (.fatal msg)) ∧
    RunSearch ["10.0.0.1".toList] [] { date := "01/02/2024".toList, time := "30".toList } =
      .error (.fatal "Need only one option: -t  or -d".toList) ∧
    (∃ qr, RunSearch ["10.0.0.1".toList] [] { time := "30".toList }
      = .ok (execute OpensearchTemplate qr)) :=
  ⟨(RunSearch_fatal_iff _ _ _).1.mpr (by decide),
   (RunSearch_fatal_iff _ _ _).2.2.1 (by decide) (by decide),
   ((RunSearch_fatal_iff ["10.0.0.1".toList] [] { time := "30".toList }).2.2.2
      (by decide)).elim (fun qr h => ⟨qr, h.2⟩)⟩

/-- C6: for a non-empty `date` option, `DateBegin` is the text before the first comma,
and `DateFormat` is `dd/MM/yyyy` when it has no colon, `dd/MM/yyyy:HH` when it has exactly
one, `dd/MM/yyyy:HH:mm` when it has two or more. -/
theorem DateFormat_by_colons (ipHosts : List Str) (cfgApp : GoMap Str) (o : Options)
    (hdate : o.date ≠ []) :
    ∃ qr, buildQuery ipHosts cfgApp o = .ok qr ∧
      qr.DateBegin = o.date.takeWhile (fun c => decide (c ≠ ',')) ∧
      (qr.DateBegin.count ':' = 0 → qr.DateFormat = "dd/MM/yyyy".toList) ∧
      (qr.DateBegin.count ':' = 1 → qr.DateFormat = "dd/MM/yyyy:HH".toList) ∧
      (2 ≤ qr.DateBegin.count ':' → qr.DateFormat = "dd/MM/yyyy:HH:mm".toList) := by
  obtain ⟨qr, hqr, _, _, _, _, _, _, _, hd⟩ := buildQuery_ok ipHosts cfgApp o
  obtain ⟨hb, hf⟩ := hd hdate
  refine ⟨qr, hqr, hb, ?_, ?_, ?_⟩
  · intro h0
    rw [hf, if_pos h0]
  · intro h1
    rw [hf, if_neg (by omega), if_pos h1]
  · intro h2
    rw [hf, if_neg (by omega), if_neg (by omega)]

/-- C6, at the inputs named in the claim: `01/02/2024` gives the date-only format,
`01/02/2024:10` the date-hour format, `01/02/2024:10:30` the date-hour-minute format. -/
theorem DateFormat_by_colons_witness :
    (∃ qr, buildQuery ["10.0.0.1".toList] [] { date := "01/02/2024".toList } = .ok qr ∧
      qr.DateBegin = "01/02/2024".toList ∧ qr.DateFormat = "dd/MM/yyyy".toList) ∧
    (∃ qr, buildQuery ["10.0.0.1".toList] [] { date := "01/02/2024:10".toList } = .ok qr ∧
      qr.DateBegin = "01/02/2024:10".toList ∧ qr.DateFormat = "dd/MM/yyyy:HH".toList) ∧
    (∃ qr, buildQuery ["10.0.0.1".toList] []
        { date := "01/02/2024:10:30,02/02/2024:11:00".toList } = .ok qr ∧
      qr.DateBegin = "01/02/2024:10:30".toList ∧ qr.DateFormat = "dd/MM/yyyy:HH:mm".toList) := by
  refine ⟨?_, ?_, ?_⟩
  · obtain ⟨qr, h, hb, h0, _, _⟩ := DateFormat_by_colons ["10.0.0.1".toList] []
      { date := "01/02/2024".toList } (by decide)
    have hb2 : qr.DateBegin = "01/02/2024".toList := by rw [hb]; decide
    exact ⟨qr, h, hb2, h0 (by rw [hb2]; decide)⟩
  · obtain ⟨qr, h, hb, _, h1, _⟩ := DateFormat_by_colons ["10.0.0.1".toList] []
      { date := "01/02/2024:10".toList } (by decide)
    have hb2 : qr.DateBegin = "01/02/2024:10".toList := by rw [hb]; decide
    exact ⟨qr, h, hb2, h1 (by rw [hb2]; decide)⟩
  · obtain ⟨qr, h, hb, _, _, h2⟩ := DateFormat_by_colons ["10.0.0.1".toList] []
      { date := "01/02/2024:10:30,02/02/2024:11:00".toList } (by decide)
    have hb2 : qr.DateBegin = "01/02/2024:10:30".toList := by rw [hb]; decide
    exact ⟨qr, h, hb2, h2 (by rw [hb2]; decide)⟩

/-- C9: for a non-empty `time` option `t` that passes the validation, `RunSearch` puts
`t` in `Days` when `t` matches the pattern `d` and in `Minutes` otherwise, and the
`"filter"` array of the rendered query holds, after the free-text clause if there is
one, exactly the day-aligned clause for `t` in the first case and exactly the
minute-aligned clause for `t` in the second. -/
theorem relative_window_clause (ipHosts : List Str) (cfgApp : GoMap Str) (o : Options)
    (htime : o.time ≠ []) (hhosts : ¬ (ipHosts = [] ∧ o.ipaddr = [])) (hdate : o.date = []) :
    ∃ qr, RunSearch ipHosts cfgApp o =
        .ok (execute templateHead qr ++ execute templateFilter qr ++ execute templateTail qr) ∧
      (checkRegex "d".toList o.time = true →
        qr.Days = o.time ∧ qr.Minutes = [] ∧
        execute templateFilter qr =
          (if o.search ≠ [] then termClause o.search else []) ++
            (clauseIndent ++ dayClause o.time)) ∧
      (checkRegex "d".toList o.time = false →
        qr.Minutes = o.time ∧ qr.Days = [] ∧
        execute templateFilter qr =
          (if o.search ≠ [] then termClause o.search else []) ++
            (clauseIndent ++ minuteClause o.time)) := by
  have h1 : ¬ noHosts ipHosts o := by
    unfold noHosts
    rw [List.length_eq_zero]
    exact hhosts
  have h2 : ¬ bothWindows o := fun h => h.1 hdate
  obtain ⟨qr, hqr, hrun⟩ := RunSearch_of_valid ipHosts cfgApp o h1 h2
  obtain ⟨qr', hqr', _, hterm, hdays, hmin, _, _, hbegin, _⟩ := buildQuery_ok ipHosts
    (if o.records ≠ [] then GoMap.set cfgApp "max_records".toList o.records else cfgApp) o
  rw [hqr] at hqr'
  cases hqr'
  refine ⟨qr, ?_, ?_, ?_⟩
  · rw [hrun, execute_OpensearchTemplate]
  · intro hd
    rw [hd] at hdays hmin
    simp only [if_true] at hdays hmin
    refine ⟨hdays, hmin, ?_⟩
    rw [execute_templateFilter, hterm, hdays, hmin, hbegin hdate]
    simp [htime]
  · intro hd
    rw [hd] at hdays hmin
    simp only [Bool.false_eq_true, if_false] at hdays hmin
    refine ⟨hmin, hdays, ?_⟩
    rw [execute_templateFilter, hterm, hdays, hmin, hbegin hdate]
    simp [htime]

/-- C9, at the inputs named in the claim: `7d` gives the day-aligned clause and no
minute clause, `30` gives the minute-aligned clause and no day clause. -/
theorem relative_window_clause_witness :
    (∃ qr, RunSearch ["10.0.0.1".toList] [] { time := "7d".toList } =
        .ok (execute templateHead qr ++ execute templateFilter qr ++ execute templateTail qr) ∧
      qr.Days = "7d".toList ∧ qr.Minutes = [] ∧
      execute templateFilter qr =
        "\n\t\t  \x7b\"range\": \x7b\"@timestamp\": \x7b\"gte\": \"now-7d/d\"\x7d\x7d\x7d".toList) ∧
    (∃ qr, RunSearch ["10.0.0.1".toList] [] { time := "30".toList } =
        .ok (execute templateHead qr ++ execute templateFilter qr ++ execute templateTail qr) ∧
      qr.Minutes = "30".toList ∧ qr.Days = [] ∧
      execute templateFilter qr =
        "\n\t\t  \x7b\"range\": \x7b\"@timestamp\": \x7b\"gte\": \"now-30m/m\"\x7d\x7d\x7d".toList) := by
  refine ⟨?_, ?_⟩
  · obtain ⟨qr, hrun, hday, _⟩ := relative_window_clause ["10.0.0.1".toList] []
      { time := "7d".toList } (by decide) (by decide) rfl
    obtain ⟨h1, h2, h3⟩ := hday (by decide)
    exact ⟨qr, hrun, h1, h2, h3.trans (by decide)⟩
  · obtain ⟨qr, hrun, _, hmin⟩ := relative_window_clause ["10.0.0.1".toList] []
      { time := "30".toList } (by decide) (by decide) rfl
    obtain ⟨h1, h2, h3⟩ := hmin (by decide)
    exact ⟨qr, hrun, h1, h2, h3.trans (by decide)⟩

/-- C10 fails at a free-text term without a time window: the text rendered for hosts
`10.0.0.1`, term `error` and no `time` or `date` has the free-text clause, ending in a
comma, directly followed by the white space and the closing bracket of the `"filter"`
array. -/
theorem filter_comma_before_bracket :
    RunSearch ["10.0.0.1".toList]
        [("desc".toList, "asc".toList), ("max_records".toList, "100".toList)]
        { search := "error".toList } =
      .ok (("\x7b\n\t\"size\": 100,\n\t\"query\": \x7b\n\t  \"bool\": \x7b\n\t\t\"must\": \x7b" ++
        "\n\t\t  \"terms\": \x7b\"host\": [\"10.0.0.1\"] \x7d\n\t\t\x7d,\n\t\t\"filter\": [").toList ++
        termClause "error".toList ++
        "\n\t\t]".toList ++
        ("\n\t  \x7d\n\t \x7d,\n\t \"sort\": [\n\t\t\x7b\n\t\t  \"@timestamp\": \x7b\n\t\t\t" ++
        "\"order\": \"asc\"\n\t\t  \x7d\n\t\t\x7d\n\t  ]\n\t\x7d\n\t").toList) ∧
    (termClause "error".toList).getLast? = some ',' := by
  refine ⟨?_, by decide⟩
  have hrun : RunSearch ["10.0.0.1".toList]
      [("desc".toList, "asc".toList), ("max_records".toList, "100".toList)]
      { search := "error".toList } =
      .ok (execute OpensearchTemplate
        { TermHosts := ["10.0.0.1".toList], Size := "100".toList, TermMessage := "error".toList,
          SortOrder := "asc".toList }) := by
    rfl
  rw [hrun]
  refine congrArg Except.ok ?_
  set_option maxRecDepth 20000 in decide

theorem getLast?_append_of_ne_nil (xs ys : Str) (h : ys ≠ []) :
    (xs ++ ys).getLast? = ys.getLast? := by
  rw [List.getLast?_append]
  cases ys with
  | nil => exact absurd rfl h
  | cons y ys =>
    obtain ⟨c, hc⟩ : ∃ c, (y :: ys).getLast? = some c :=
      ⟨_, List.getLast?_eq_getLast _ (List.cons_ne_nil _ _)⟩
    rw [hc]
    rfl

theorem termClause_getLast? (term : Str) : (termClause term).getLast? = some ',' := by
  unfold termClause
  rw [getLast?_append_of_ne_nil _ _ (by decide)]
  decide

theorem minuteClause_getLast? (pre t : Str) :
    (pre ++ (clauseIndent ++ minuteClause t)).getLast? = some (Char.ofNat 125) := by
  unfold minuteClause
  rw [← List.append_assoc, ← List.append_assoc, getLast?_append_of_ne_nil _ _ (by decide)]
  decide

theorem dayClause_getLast? (pre t : Str) :
    (pre ++ (clauseIndent ++ dayClause t)).getLast? = some (Char.ofNat 125) := by
  unfold dayClause
  rw [← List.append_assoc, ← List.append_assoc, getLast?_append_of_ne_nil _ _ (by decide)]
  decide

theorem dateClause_getLast? (pre b e f : Str) :
    (pre ++ (dateIndent ++ dateClause b e f)).getLast? = some (Char.ofNat 125) := by
  unfold dateClause
  rw [← List.append_assoc, ← List.append_assoc, getLast?_append_of_ne_nil _ _ (by decide)]
  decide

/-- On a validated input the text between the brackets of the
`"filter"` array ends in a comma exactly when a free-text term is given, no `time` is
given and the `date` option has nothing before its first comma (so also when no `date` is
given). -/
theorem filter_ends_in_comma_iff (ipHosts : List Str) (cfgApp : GoMap Str) (o : Options)
    (hhosts : ¬ (ipHosts = [] ∧ o.ipaddr = [])) (hwin : ¬ (o.date ≠ [] ∧ o.time ≠ [])) :
    ∃ qr, RunSearch ipHosts cfgApp o =
        .ok (execute templateHead qr ++ execute templateFilter qr ++ execute templateTail qr) ∧
      ((execute templateFilter qr).getLast? = some ',' ↔
        o.search ≠ [] ∧ o.time = [] ∧
          o.date.takeWhile (fun c => decide (c ≠ ',')) = []) := by
  have h1 : ¬ noHosts ipHosts o := by
    unfold noHosts
    rw [List.length_eq_zero]
    exact hhosts
  obtain ⟨qr, hqr, hrun⟩ := RunSearch_of_valid ipHosts cfgApp o h1 hwin
  obtain ⟨qr', hqr', _, hterm, hdays, hmin, _, _, hbegin, hdate⟩ := buildQuery_ok ipHosts
    (if o.records ≠ [] then GoMap.set cfgApp "max_records".toList o.records else cfgApp) o
  rw [hqr] at hqr'
  cases hqr'
  refine ⟨qr, by rw [hrun, execute_OpensearchTemplate], ?_⟩
  rw [execute_templateFilter, hterm]
  have hne : some (Char.ofNat 125) ≠ some ',' := by decide
  by_cases hd : o.date = []
  · rw [hbegin hd]
    by_cases ht : o.time = []
    · have hD : qr.Days = [] := by rw [hdays, ht]; simp
      have hM : qr.Minutes = [] := by rw [hmin, ht]; simp
      rw [hD, hM]
      by_cases hs : o.search = []
      · simp [hs]
      · simp [hs, ht, hd, termClause_getLast?]
    · cases hc : checkRegex "d".toList o.time
      · have hD : qr.Days = [] := by rw [hdays, hc]; simp
        have hM : qr.Minutes = o.time := by rw [hmin, hc]; simp
        rw [hD, hM]
        simp only [ne_eq, ht, not_false_eq_true, if_true, not_true_eq_false, if_false,
          List.append_nil, minuteClause_getLast?]
        simp [hne]
      · have hD : qr.Days = o.time := by rw [hdays, hc]; simp
        have hM : qr.Minutes = [] := by rw [hmin, hc]; simp
        rw [hD, hM]
        simp only [ne_eq, ht, not_false_eq_true, if_true, not_true_eq_false, if_false,
          List.append_nil, List.nil_append, dayClause_getLast?]
        simp [hne]
  · have ht : o.time = [] := by
      by_contra ht
      exact hwin ⟨hd, ht⟩
    have hD : qr.Days = [] := by rw [hdays, ht]; simp
    have hM : qr.Minutes = [] := by rw [hmin, ht]; simp
    rw [hD, hM, ← (hdate hd).1]
    by_cases hb : qr.DateBegin = []
    · rw [hb]
      by_cases hs : o.search = []
      · simp [hs]
      · simp [hs, ht, termClause_getLast?]
    · simp only [ne_eq, hb, not_false_eq_true, if_true, not_true_eq_false, if_false,
        List.append_nil, List.nil_append, dateClause_getLast?]
      simp [hne]

/-! ## Line rendering -/

theorem split_one (s : Str) (sep : Char) :
    (strings.Split s sep)[1]? =
      if sep ∈ s then
        some (((s.dropWhile (fun c => decide (c ≠ sep))).drop 1).takeWhile
          (fun c => decide (c ≠ sep)))
      else none := by
  induction s with
  | nil => simp [strings.Split]
  | cons c cs ih =>
    unfold strings.Split
    by_cases h : c = sep
    · subst h
      simp [split_head]
    · rw [if_neg h]
      have hm : (sep ∈ c :: cs) ↔ sep ∈ cs := by
        rw [List.mem_cons]
        constructor
        · rintro (e | e)
          · exact absurd e.symm h
          · exact e
        · exact Or.inr
      split
      · next heq => exact absurd heq (split_ne_nil cs sep)
      · next p ps heq =>
        rw [heq] at ih
        simp only [List.getElem?_cons_succ] at ih ⊢
        rw [ih]
        simp [hm, h]

/-- The three cases of `lineBody`: the message itself without `CID=0x`; with `CID=0x`
and a semicolon, the text between the first semicolon and the next one (or the end);
with `CID=0x` and no semicolon, a panic. -/
theorem lineBody_cases (v : Source) :
    lineBody v =
      if strings.Contains v.Message "CID=0x".toList = true then
        if ';' ∈ v.Message then
          .ok (((v.Message.dropWhile (fun c => decide (c ≠ ';'))).drop 1).takeWhile
            (fun c => decide (c ≠ ';')))
        else .error .panic
      else .ok v.Message := by
  unfold lineBody sliceIndex
  rw [split_one]
  by_cases h1 : strings.Contains v.Message "CID=0x".toList = true <;>
    by_cases h2 : ';' ∈ v.Message <;> simp [h1, h2]

theorem takeWhile_eq_self_of_count (s : Str) (sep : Char) (h : s.count sep = 0) :
    s.takeWhile (fun c => decide (c ≠ sep)) = s := by
  rw [List.takeWhile_eq_self_iff]
  intro c hc
  have : c ≠ sep := by
    rintro rfl
    exact absurd (List.count_pos_iff.mpr hc) (by omega)
  simpa using this

theorem count_after_first (s : Str) (sep : Char) (h : sep ∈ s) :
    ((s.dropWhile (fun c => decide (c ≠ sep))).drop 1).count sep + 1 = s.count sep := by
  induction s with
  | nil => exact absurd h (List.not_mem_nil _)
  | cons c cs ih =>
    by_cases hc : c = sep
    · subst hc
      simp [List.dropWhile]
    · have hm : sep ∈ cs := by
        rcases List.mem_cons.mp h with e | e
        · exact absurd e.symm hc
        · exact e
      rw [List.count_cons_of_ne (Ne.symm hc), ← ih hm]
      simp [List.dropWhile, hc]

/-- With `CID=0x` and exactly one semicolon the body is everything after the
semicolon. -/
theorem lineBody_one_semicolon (v : Source)
    (hcid : strings.Contains v.Message "CID=0x".toList = true)
    (hone : v.Message.count ';' = 1) :
    lineBody v = .ok ((v.Message.dropWhile (fun c => decide (c ≠ ';'))).drop 1) := by
  have hmem : ';' ∈ v.Message := List.count_pos_iff.mp (by omega)
  rw [lineBody_cases, if_pos hcid, if_pos hmem]
  congr 1
  apply takeWhile_eq_self_of_count
  have := count_after_first v.Message ';' hmem
  omega

theorem renderLine_cases (v : Source) :
    renderLine v =
      if v.Hosttimestamp.takeWhile (fun c => decide (c ≠ '.')) ≠ [] then
        (lineBody v).map (lineSprintf
          (strings.Replace1 (v.Hosttimestamp.takeWhile (fun c => decide (c ≠ '.')))
            'T' ' ') v.Flty v.Mnemonic)
      else .ok (v.Message ++ "\n".toList) := by
  unfold renderLine
  simp only [sliceIndex_zero_split, bind, Except.bind, pure, Except.pure]
  split
  · cases lineBody v <;> rfl
  · rfl

theorem renderLine_panic_iff (v : Source) :
    renderLine v = .error .panic ↔
      v.Hosttimestamp.takeWhile (fun c => decide (c ≠ '.')) ≠ [] ∧
        strings.Contains v.Message "CID=0x".toList = true ∧ ';' ∉ v.Message := by
  rw [renderLine_cases, lineBody_cases]
  generalize v.Hosttimestamp.takeWhile (fun c => decide (c ≠ '.')) = ts
  generalize strings.Contains v.Message "CID=0x".toList = b
  generalize v.Message = msg
  by_cases h0 : ts = [] <;> cases b <;> by_cases h2 : ';' ∈ msg <;>
    simp [h0, h2, Except.map]

theorem renderLine_ok_or_panic (v : Source) :
    (∃ s, renderLine v = .ok s) ∨ renderLine v = .error .panic := by
  rw [renderLine_cases, lineBody_cases]
  generalize v.Hosttimestamp.takeWhile (fun c => decide (c ≠ '.')) = ts
  generalize strings.Contains v.Message "CID=0x".toList = b
  generalize v.Message = msg
  by_cases h0 : ts = [] <;> cases b <;> by_cases h2 : ';' ∈ msg <;>
    simp [h0, h2, Except.map]

/-- C5 fails on the code at two kinds of message that contain `CID=0x`: without a
semicolon the rendering panics instead of producing a body; with two semicolons the
body is the text between them, not everything after the first one. -/
theorem lineBody_divergence :
    renderLine hitNoSemicolon = .error .panic ∧
    lineBody hitTwoSemicolons = .ok "Port 1".toList ∧
    afterFirstSemicolon hitTwoSemicolons.Message = "Port 1;state down".toList ∧
    renderLine hitTwoSemicolons =
      .ok (lineSprintf "2024-01-02 10:00:00".toList "daemon".toList "LINK".toList
        "Port 1".toList) :=
  ⟨rfl, rfl, by decide, rfl⟩

/-! ## Pattern matching and the tag of a line -/

theorem matchHere_iff (alt : List Atom) (s : Str) :
    matchHere alt s = true ↔ ∃ t, t <+: s ∧ acceptsBlock alt t := by
  unfold acceptsBlock
  induction alt generalizing s with
  | nil =>
    simp only [matchHere, true_iff]
    exact ⟨[], List.nil_prefix, List.Forall₂.nil⟩
  | cons a alt ih =>
    cases s with
    | nil =>
      simp only [matchHere, Bool.false_eq_true, false_iff]
      rintro ⟨t, ht, hf⟩
      rw [List.prefix_nil] at ht
      subst ht
      cases hf
    | cons c cs =>
      simp only [matchHere, Bool.and_eq_true, ih]
      constructor
      · rintro ⟨ha, t, ht, hf⟩
        exact ⟨c :: t, (List.cons_prefix_cons).mpr ⟨rfl, ht⟩, List.Forall₂.cons ha hf⟩
      · rintro ⟨t, ht, hf⟩
        cases hf with
        | cons ha hf' =>
          obtain ⟨rfl, ht'⟩ := (List.cons_prefix_cons).mp ht
          exact ⟨ha, _, ht', hf'⟩

theorem matchAnywhere_iff (alts : List (List Atom)) (s : Str) :
    matchAnywhere alts s = true ↔ ∃ alt ∈ alts, ∃ t, t <:+: s ∧ acceptsBlock alt t := by
  induction s with
  | nil =>
    simp only [matchAnywhere, List.any_eq_true, matchHere_iff]
    constructor
    · rintro ⟨alt, halt, t, ht, hf⟩
      exact ⟨alt, halt, t, ht.isInfix, hf⟩
    · rintro ⟨alt, halt, t, ht, hf⟩
      exact ⟨alt, halt, t, by rw [List.infix_nil] at ht; rw [ht], hf⟩
  | cons c cs ih =>
    simp only [matchAnywhere, Bool.or_eq_true, List.any_eq_true, matchHere_iff, ih]
    constructor
    · rintro (⟨alt, halt, t, ht, hf⟩ | ⟨alt, halt, t, ht, hf⟩)
      · exact ⟨alt, halt, t, ht.isInfix, hf⟩
      · exact ⟨alt, halt, t, List.infix_cons ht, hf⟩
    · rintro ⟨alt, halt, t, ht, hf⟩
      rcases List.infix_cons_iff.mp ht with h | h
      · exact Or.inl ⟨alt, halt, t, h, hf⟩
      · exact Or.inr ⟨alt, halt, t, h, hf⟩

/-- A pattern matches a line exactly when the line has a block of runes that one of
its alternatives accepts. -/
theorem checkRegex_iff (r s : Str) :
    checkRegex r s = true ↔ ∃ alt ∈ regexp.Compile r, ∃ t, t <:+: s ∧ acceptsBlock alt t :=
  matchAnywhere_iff _ _

theorem checkRegex_up_of_interface_up (j : Str) (h : "interface up".toList <:+: j) :
    checkRegex "(?i)\\sup".toList j = true := by
  rw [checkRegex_iff]
  have hc : regexp.Compile "(?i)\\sup".toList =
      [[Atom.perlSpace, Atom.fold 'u', Atom.fold 'p']] := by decide
  rw [hc]
  refine ⟨_, List.mem_singleton_self _, " up".toList, ?_, ?_⟩
  · exact List.IsInfix.trans (by decide) h
  · exact List.Forall₂.cons (by decide) (List.Forall₂.cons (by decide)
      (List.Forall₂.cons (by decide) List.Forall₂.nil))

theorem emojiKeywords_eq_matchingTags (j : Str) : emojiKeywords j = matchingTags j := by
  unfold emojiKeywords matchingTags emojiPatterns
  simp only [List.filter_cons, List.filter_nil]
  generalize checkRegex "(?i)\\sdown".toList j = b1
  generalize checkRegex "(?i)\\sup".toList j = b2
  generalize checkRegex "(?i)ssh".toList j = b3
  generalize checkRegex "(?i)bgp".toList j = b4
  generalize checkRegex "(?i)ntp".toList j = b5
  generalize checkRegex "(?i)commit|config_i".toList j = b6
  generalize checkRegex "(?i)low_rx_power|signal".toList j = b7
  cases b1 <;> cases b2 <;> cases b3 <;> cases b4 <;> cases b5 <;> cases b6 <;> cases b7 <;> rfl

theorem no_match_iff (j : Str) :
    (∀ p ∈ emojiPatterns, checkRegex p.1 j = false) ↔ matchingTags j = [] := by
  unfold matchingTags emojiPatterns
  simp only [List.filter_cons, List.filter_nil, List.forall_mem_cons, List.not_mem_nil,
    false_implies, implies_true, and_true]
  generalize checkRegex "(?i)\\sdown".toList j = b1
  generalize checkRegex "(?i)\\sup".toList j = b2
  generalize checkRegex "(?i)ssh".toList j = b3
  generalize checkRegex "(?i)bgp".toList j = b4
  generalize checkRegex "(?i)ntp".toList j = b5
  generalize checkRegex "(?i)commit|config_i".toList j = b6
  generalize checkRegex "(?i)low_rx_power|signal".toList j = b7
  cases b1 <;> cases b2 <;> cases b3 <;> cases b4 <;> cases b5 <;> cases b6 <;> cases b7 <;>
    decide

theorem matchingTags_props (j : Str) :
    matchingTags j ≠ defaultTag ∧ ¬ defaultTag <:+: matchingTags j ∧
      (matchingTags j = [] ∨ 2 ≤ (matchingTags j).length) := by
  unfold matchingTags emojiPatterns
  simp only [List.filter_cons, List.filter_nil]
  generalize checkRegex "(?i)\\sdown".toList j = b1
  generalize checkRegex "(?i)\\sup".toList j = b2
  generalize checkRegex "(?i)ssh".toList j = b3
  generalize checkRegex "(?i)bgp".toList j = b4
  generalize checkRegex "(?i)ntp".toList j = b5
  generalize checkRegex "(?i)commit|config_i".toList j = b6
  generalize checkRegex "(?i)low_rx_power|signal".toList j = b7
  cases b1 <;> cases b2 <;> cases b3 <;> cases b4 <;> cases b5 <;> cases b6 <;> cases b7 <;>
    decide

theorem tag_infix_iff (j : Str) :
    ∀ p ∈ emojiPatterns,
      (GoMap.index [] emoji p.2 <:+: matchingTags j ↔ checkRegex p.1 j = true) := by
  unfold matchingTags emojiPatterns
  simp only [List.filter_cons, List.filter_nil, List.forall_mem_cons, List.not_mem_nil,
    false_implies, implies_true, and_true]
  generalize checkRegex "(?i)\\sdown".toList j = b1
  generalize checkRegex "(?i)\\sup".toList j = b2
  generalize checkRegex "(?i)ssh".toList j = b3
  generalize checkRegex "(?i)bgp".toList j = b4
  generalize checkRegex "(?i)ntp".toList j = b5
  generalize checkRegex "(?i)commit|config_i".toList j = b6
  generalize checkRegex "(?i)low_rx_power|signal".toList j = b7
  cases b1 <;> cases b2 <;> cases b3 <;> cases b4 <;> cases b5 <;> cases b6 <;> cases b7 <;>
    decide

theorem tag_not_infix_default : ∀ p ∈ emojiPatterns, ¬ GoMap.index [] emoji p.2 <:+: defaultTag := by
  decide

theorem emojiLine_eq (j : Str) :
    emojiLine j = if matchingTags j = [] then defaultTag else matchingTags j := by
  unfold emojiLine
  simp only [emojiKeywords_eq_matchingTags, List.nil_append, defaultTag]
  split <;> simp_all

/-- C7: the line appended by `addEmoji` is the tag, a space and the input line. The tag
is the concatenation, in the order down, up, ssh, bgp, ntp, conf, signal, of the tags of
the patterns that match the line, and the default tag when none matches; the tag of a
pattern occurs in it exactly when the pattern matches; it is the default tag exactly
when no pattern matches, and the default tag never occurs next to a keyword tag. A line
that contains `interface up` carries the `up` tag and not the default tag. -/
theorem emojiLine_tags (j : Str) :
    emojiSprintf j = emojiLine j ++ ' ' :: j ∧
    emojiLine j =
      (if ∀ p ∈ emojiPatterns, checkRegex p.1 j = false then defaultTag else matchingTags j) ∧
    (∀ p ∈ emojiPatterns,
      (GoMap.index [] emoji p.2 <:+: emojiLine j ↔ checkRegex p.1 j = true)) ∧
    (emojiLine j = defaultTag ↔ ∀ p ∈ emojiPatterns, checkRegex p.1 j = false) ∧
    ((∃ p ∈ emojiPatterns, checkRegex p.1 j = true) → ¬ defaultTag <:+: emojiLine j) ∧
    ("interface up".toList <:+: j →
      GoMap.index [] emoji "up".toList <:+: emojiLine j ∧ emojiLine j ≠ defaultTag ∧
        ¬ defaultTag <:+: emojiLine j) := by
  obtain ⟨hne, hninf, hlen⟩ := matchingTags_props j
  have hline := emojiLine_eq j
  have hnone := no_match_iff j
  have htag := tag_infix_iff j
  have hdef : 2 ≤ defaultTag.length := by decide
  have hsome : ∀ p ∈ emojiPatterns, checkRegex p.1 j = true → matchingTags j ≠ [] := by
    intro p hp hm he
    have := (hnone.mpr he) p hp
    rw [hm] at this
    exact absurd this (by decide)
  refine ⟨?_, ?_, ?_, ?_, ?_, ?_⟩
  · unfold emojiSprintf padRight
    have h2 : 2 ≤ (emojiLine j).length := by
      rw [hline]
      split
      · exact hdef
      · rcases hlen with h | h
        · contradiction
        · exact h
    have h0 : 2 - (emojiLine j).length = 0 := by omega
    rw [h0]
    simp
  · rw [hline]
    by_cases h : matchingTags j = []
    · rw [if_pos h, if_pos (hnone.mpr h)]
    · rw [if_neg h, if_neg (fun hh => h (hnone.mp hh))]
  · intro p hp
    rw [hline]
    by_cases h : matchingTags j = []
    · rw [if_pos h]
      have h1 := (hnone.mpr h) p hp
      rw [h1]
      simp only [Bool.false_eq_true, iff_false]
      exact tag_not_infix_default p hp
    · rw [if_neg h]
      exact htag p hp
  · rw [hline, hnone]
    by_cases h : matchingTags j = []
    · rw [if_pos h]
      simp [h]
    · rw [if_neg h]
      simp [h, hne]
  · rintro ⟨p, hp, hm⟩
    rw [hline, if_neg (hsome p hp hm)]
    exact hninf
  · intro hup
    have hm := checkRegex_up_of_interface_up j hup
    have hp : ("(?i)\\sup".toList, "up".toList) ∈ emojiPatterns := by decide
    have hnn := hsome _ hp hm
    rw [hline, if_neg hnn]
    exact ⟨(htag _ hp).mpr hm, hne, hninf⟩

/-- C7, at concrete lines: `ge-0/0/1: interface up` gets the `up` tag alone; a line
without keyword gets the default tag alone; a line matching the down, ssh and bgp
patterns gets the three tags in the order down, ssh, bgp. -/
theorem emojiLine_tags_witness :
    emojiLine "ge-0/0/1: interface up".toList = GoMap.index [] emoji "up".toList ∧
    emojiLine "ge-0/0/1: interface up".toList ≠ defaultTag ∧
    emojiLine "nothing to report".toList = defaultTag ∧
    emojiLine "BGP peer Down, SSH session closed".toList =
      GoMap.index [] emoji "down".toList ++ GoMap.index [] emoji "ssh".toList ++
        GoMap.index [] emoji "bgp".toList :=
  ⟨(emojiLine_tags "ge-0/0/1: interface up".toList).2.1.trans (by decide),
   ((emojiLine_tags "ge-0/0/1: interface up".toList).2.2.2.2.2 (by decide)).2.1,
   (emojiLine_tags "nothing to report".toList).2.2.2.1.mpr (by decide),
   (emojiLine_tags "BGP peer Down, SSH session closed".toList).2.1.trans (by decide)⟩

/-! ## Go maps -/

theorem index_set_self {V : Type} (zero : V) (m : GoMap V) (k : Str) (x : V) :
    GoMap.index zero (GoMap.set m k x) k = x := by
  induction m with
  | nil => simp [GoMap.set, GoMap.index]
  | cons e rest ih =>
    obtain ⟨k', y⟩ := e
    unfold GoMap.set
    by_cases h : k' = k
    · rw [if_pos h, GoMap.index, if_pos rfl]
    · rw [if_neg h, GoMap.index, if_neg h, ih]

theorem index_set_ne {V : Type} (zero : V) (m : GoMap V) (k k' : Str) (x : V) (hne : k' ≠ k) :
    GoMap.index zero (GoMap.set m k x) k' = GoMap.index zero m k' := by
  induction m with
  | nil => simp [GoMap.set, GoMap.index, Ne.symm hne]
  | cons e rest ih =>
    obtain ⟨k₀, y⟩ := e
    unfold GoMap.set
    by_cases h : k₀ = k
    · subst h
      rw [if_pos rfl, GoMap.index, GoMap.index, if_neg (Ne.symm hne), if_neg (Ne.symm hne)]
    · rw [if_neg h, GoMap.index, GoMap.index]
      by_cases h2 : k₀ = k'
      · rw [if_pos h2, if_pos h2]
      · rw [if_neg h2, if_neg h2, ih]

theorem index_of_not_mem_keys {V : Type} (zero : V) (m : GoMap V) (k : Str)
    (h : k ∉ GoMap.keys m) : GoMap.index zero m k = zero := by
  induction m with
  | nil => rfl
  | cons e rest ih =>
    obtain ⟨k₀, y⟩ := e
    simp only [GoMap.keys, List.map_cons, List.mem_cons, not_or] at h
    have h0 : ¬ k₀ = k := fun e => h.1 e.symm
    rw [GoMap.index, if_neg h0]
    exact ih h.2

theorem keys_cons {V : Type} (k : Str) (x : V) (m : GoMap V) :
    GoMap.keys ((k, x) :: m) = k :: GoMap.keys m := rfl

theorem mem_keys_set {V : Type} (m : GoMap V) (k k' : Str) (x : V) :
    k' ∈ GoMap.keys (GoMap.set m k x) ↔ k' = k ∨ k' ∈ GoMap.keys m := by
  induction m with
  | nil =>
    unfold GoMap.set
    rw [keys_cons, List.mem_cons]
  | cons e rest ih =>
    obtain ⟨k₀, y⟩ := e
    unfold GoMap.set
    by_cases h : k₀ = k
    · subst h
      rw [if_pos rfl, keys_cons, keys_cons, List.mem_cons]
      tauto
    · rw [if_neg h, keys_cons, keys_cons, List.mem_cons, List.mem_cons, ih]
      tauto

theorem nodup_keys_set {V : Type} (m : GoMap V) (k : Str) (x : V)
    (h : (GoMap.keys m).Nodup) : (GoMap.keys (GoMap.set m k x)).Nodup := by
  induction m with
  | nil =>
    unfold GoMap.set
    rw [keys_cons]
    exact List.nodup_cons.mpr ⟨List.not_mem_nil _, List.nodup_nil⟩
  | cons e rest ih =>
    obtain ⟨k₀, y⟩ := e
    unfold GoMap.set
    rw [keys_cons, List.nodup_cons] at h
    by_cases hk : k₀ = k
    · subst hk
      rw [if_pos rfl, keys_cons, List.nodup_cons]
      exact h
    · rw [if_neg hk, keys_cons, List.nodup_cons]
      refine ⟨?_, ih h.2⟩
      intro hmem
      rcases (mem_keys_set rest k k₀ x).mp hmem with e | e
      · exact hk e
      · exact h.1 e

theorem totalLines_cons (k : Str) (x : List Str) (m : GoMap (List Str)) :
    totalLines ((k, x) :: m) = x.length + totalLines m := by
  simp [totalLines]

theorem totalLines_set_append (m : GoMap (List Str)) (k : Str) (x : Str) :
    totalLines (GoMap.set m k (GoMap.index [] m k ++ [x])) = totalLines m + 1 := by
  induction m with
  | nil =>
    unfold GoMap.set GoMap.index
    rw [totalLines_cons]
    rfl
  | cons e rest ih =>
    obtain ⟨k₀, y⟩ := e
    unfold GoMap.set GoMap.index
    by_cases hk : k₀ = k
    · rw [if_pos hk, if_pos hk, totalLines_cons, totalLines_cons, List.length_append]
      simp only [List.length_singleton]
      omega
    · rw [if_neg hk, if_neg hk, totalLines_cons, totalLines_cons, ih]
      omega

/-! ## The loop over the hits -/

theorem hitStep_ok (cfg : LoopConfig) (m : GoMap (List Str)) (v : Source) (s : Str)
    (h : renderLine v = .ok s) :
    hitStep cfg m v = .ok (if flgMsgAdd cfg v = true then
      GoMap.set m (hstName cfg v) (GoMap.index [] m (hstName cfg v) ++ [s]) else m) := by
  unfold hitStep
  simp only [h, bind, Except.bind, pure, Except.pure]
  split <;> rfl

theorem hitStep_error (cfg : LoopConfig) (m : GoMap (List Str)) (v : Source) (e : Failure)
    (h : renderLine v = .error e) : hitStep cfg m v = .error e := by
  unfold hitStep
  simp only [h, bind, Except.bind]

theorem linesFor_cons_ok (cfg : LoopConfig) (k : Str) (v : Source) (hits : List Source)
    (s : Str) (h : renderLine v = .ok s) :
    linesFor cfg k (v :: hits) =
      (if flgMsgAdd cfg v = true ∧ hstName cfg v = k then [s] else []) ++
        linesFor cfg k hits := by
  unfold linesFor
  rw [List.filterMap_cons]
  by_cases hc : flgMsgAdd cfg v = true ∧ hstName cfg v = k
  · simp only [if_pos hc, h, Except.toOption]
    rfl
  · simp only [if_neg hc]
    rfl

theorem foldlM_hitStep_ok (cfg : LoopConfig) (hits : List Source) (m₀ : GoMap (List Str))
    (h : ∀ v ∈ hits, ∃ s, renderLine v = .ok s) :
    ∃ m, hits.foldlM (hitStep cfg) m₀ = .ok m ∧
      (∀ k, GoMap.index [] m k = GoMap.index [] m₀ k ++ linesFor cfg k hits) ∧
      (∀ k, k ∈ GoMap.keys m ↔ k ∈ GoMap.keys m₀ ∨ linesFor cfg k hits ≠ []) ∧
      ((GoMap.keys m₀).Nodup → (GoMap.keys m).Nodup) ∧
      totalLines m = totalLines m₀ + (hits.filter (fun v => flgMsgAdd cfg v)).length := by
  induction hits generalizing m₀ with
  | nil =>
    refine ⟨m₀, rfl, ?_, ?_, fun hn => hn, ?_⟩
    · intro k
      simp [linesFor]
    · intro k
      simp [linesFor]
    · simp
  | cons v hits ih =>
    obtain ⟨s, hs⟩ := h v (List.mem_cons_self _ _)
    have hrest : ∀ w ∈ hits, ∃ s, renderLine w = .ok s :=
      fun w hw => h w (List.mem_cons_of_mem _ hw)
    rw [List.foldlM_cons, hitStep_ok cfg m₀ v s hs]
    by_cases hk : flgMsgAdd cfg v = true
    · rw [if_pos hk]
      obtain ⟨m, hm, hidx, hkeys, hnd, htot⟩ := ih
        (GoMap.set m₀ (hstName cfg v) (GoMap.index [] m₀ (hstName cfg v) ++ [s])) hrest
      refine ⟨m, hm, ?_, ?_, ?_, ?_⟩
      · intro k
        rw [hidx k, linesFor_cons_ok cfg k v hits s hs]
        by_cases hkk : hstName cfg v = k
        · subst hkk
          rw [index_set_self, if_pos ⟨hk, rfl⟩, List.append_assoc]
        · rw [index_set_ne _ _ _ _ _ (Ne.symm hkk), if_neg (fun hh => hkk hh.2)]
          rfl
      · intro k
        rw [hkeys k, mem_keys_set, linesFor_cons_ok cfg k v hits s hs]
        by_cases hkk : hstName cfg v = k
        · subst hkk
          simp [hk]
        · have hkk' : ¬ k = hstName cfg v := fun e => hkk e.symm
          simp [hkk, hkk']
      · exact fun hn => hnd (nodup_keys_set _ _ _ hn)
      · rw [htot, totalLines_set_append, List.filter_cons]
        simp only [hk, if_true, List.length_cons]
        omega
    · rw [if_neg hk]
      obtain ⟨m, hm, hidx, hkeys, hnd, htot⟩ := ih m₀ hrest
      refine ⟨m, hm, ?_, ?_, hnd, ?_⟩
      · intro k
        rw [hidx k, linesFor_cons_ok cfg k v hits s hs, if_neg (fun hh => hk hh.1)]
        rfl
      · intro k
        rw [hkeys k, linesFor_cons_ok cfg k v hits s hs, if_neg (fun hh => hk hh.1)]
        rfl
      · rw [htot, List.filter_cons]
        simp only [hk, Bool.false_eq_true, if_false]

theorem foldlM_hitStep_panic (cfg : LoopConfig) (hits : List Source) (m₀ : GoMap (List Str))
    (h : ∃ v ∈ hits, renderLine v = .error .panic) :
    hits.foldlM (hitStep cfg) m₀ = .error .panic := by
  induction hits generalizing m₀ with
  | nil =>
    obtain ⟨v, hv, _⟩ := h
    exact absurd hv (List.not_mem_nil _)
  | cons w hits ih =>
    rw [List.foldlM_cons]
    rcases renderLine_ok_or_panic w with ⟨s, hs⟩ | hp
    · rw [hitStep_ok cfg m₀ w s hs]
      obtain ⟨v, hv, hvp⟩ := h
      rcases List.mem_cons.mp hv with e | e
      · subst e
        rw [hs] at hvp
        cases hvp
      · exact ih _ ⟨v, e, hvp⟩
    · rw [hitStep_error cfg m₀ w _ hp]
      rfl

/-! ## `addEmoji` as a map -/

theorem emojiInner (i : Str) (val : List Str) (acc : GoMap (List Str)) :
    (GoMap.index [] (val.foldl (fun acc j =>
        GoMap.set acc i (GoMap.index [] acc i ++ [emojiSprintf j])) acc) i
      = GoMap.index [] acc i ++ val.map emojiSprintf) ∧
    (∀ k, k ≠ i → GoMap.index [] (val.foldl (fun acc j =>
        GoMap.set acc i (GoMap.index [] acc i ++ [emojiSprintf j])) acc) k
      = GoMap.index [] acc k) ∧
    (∀ k, k ∈ GoMap.keys (val.foldl (fun acc j =>
        GoMap.set acc i (GoMap.index [] acc i ++ [emojiSprintf j])) acc) ↔
      k ∈ GoMap.keys acc ∨ (k = i ∧ val ≠ [])) ∧
    ((GoMap.keys acc).Nodup → (GoMap.keys (val.foldl (fun acc j =>
        GoMap.set acc i (GoMap.index [] acc i ++ [emojiSprintf j])) acc)).Nodup) ∧
    totalLines (val.foldl (fun acc j =>
        GoMap.set acc i (GoMap.index [] acc i ++ [emojiSprintf j])) acc)
      = totalLines acc + val.length := by
  induction val generalizing acc with
  | nil => simp
  | cons j val ih =>
    rw [List.foldl_cons]
    obtain ⟨h1, h2, h3, h4, h5⟩ :=
      ih (GoMap.set acc i (GoMap.index [] acc i ++ [emojiSprintf j]))
    refine ⟨?_, ?_, ?_, ?_, ?_⟩
    · rw [h1, index_set_self, List.map_cons, List.append_assoc]
      rfl
    · intro k hk
      rw [h2 k hk, index_set_ne _ _ _ _ _ hk]
    · intro k
      rw [h3 k, mem_keys_set]
      constructor
      · rintro ((h | h) | ⟨h, _⟩)
        · exact Or.inr ⟨h, List.cons_ne_nil _ _⟩
        · exact Or.inl h
        · exact Or.inr ⟨h, List.cons_ne_nil _ _⟩
      · rintro (h | ⟨h, _⟩)
        · exact Or.inl (Or.inr h)
        · exact Or.inl (Or.inl h)
    · exact fun hn => h4 (nodup_keys_set _ _ _ hn)
    · rw [h5, totalLines_set_append, List.length_cons]
      omega

theorem emojiOuter (lg : GoMap (List Str)) (acc : GoMap (List Str))
    (hlg : (GoMap.keys lg).Nodup) :
    (∀ k, GoMap.index [] (lg.foldl (fun lg_emoji entry =>
        entry.2.foldl (fun acc j =>
          GoMap.set acc entry.1 (GoMap.index [] acc entry.1 ++ [emojiSprintf j])) lg_emoji) acc) k
      = GoMap.index [] acc k ++ (GoMap.index [] lg k).map emojiSprintf) ∧
    (∀ k, k ∈ GoMap.keys (lg.foldl (fun lg_emoji entry =>
        entry.2.foldl (fun acc j =>
          GoMap.set acc entry.1 (GoMap.index [] acc entry.1 ++ [emojiSprintf j])) lg_emoji) acc) ↔
      k ∈ GoMap.keys acc ∨ GoMap.index [] lg k ≠ []) ∧
    ((GoMap.keys acc).Nodup → (GoMap.keys (lg.foldl (fun lg_emoji entry =>
        entry.2.foldl (fun acc j =>
          GoMap.set acc entry.1 (GoMap.index [] acc entry.1 ++ [emojiSprintf j])) lg_emoji)
        acc)).Nodup) ∧
    totalLines (lg.foldl (fun lg_emoji entry =>
        entry.2.foldl (fun acc j =>
          GoMap.set acc entry.1 (GoMap.index [] acc entry.1 ++ [emojiSprintf j])) lg_emoji) acc)
      = totalLines acc + totalLines lg := by
  induction lg generalizing acc with
  | nil => simp [GoMap.index, totalLines]
  | cons e rest ih =>
    obtain ⟨i, val⟩ := e
    rw [keys_cons, List.nodup_cons] at hlg
    rw [List.foldl_cons]
    obtain ⟨a1, a2, a3, a4, a5⟩ := emojiInner i val acc
    obtain ⟨h1, h2, h3, h4⟩ := ih
      (val.foldl (fun acc j =>
        GoMap.set acc i (GoMap.index [] acc i ++ [emojiSprintf j])) acc) hlg.2
    refine ⟨?_, ?_, ?_, ?_⟩
    · intro k
      rw [h1 k]
      by_cases hk : i = k
      · subst hk
        rw [a1, index_of_not_mem_keys [] rest i hlg.1, GoMap.index, if_pos rfl]
        simp
      · rw [a2 k (Ne.symm hk), GoMap.index, if_neg hk]
    · intro k
      rw [h2 k, a3 k]
      by_cases hk : i = k
      · subst hk
        rw [index_of_not_mem_keys [] rest i hlg.1, GoMap.index, if_pos rfl]
        simp
      · have hk' : ¬ k = i := fun e => hk e.symm
        rw [GoMap.index, if_neg hk]
        simp [hk']
    · exact fun hn => h3 (a4 hn)
    · rw [h4, a5, totalLines_cons]
      omega

theorem addEmoji_index (lg : GoMap (List Str)) (hlg : (GoMap.keys lg).Nodup) (k : Str) :
    GoMap.index [] (addEmoji lg) k = (GoMap.index [] lg k).map emojiSprintf :=
  ((emojiOuter lg [] hlg).1 k).trans (by simp [GoMap.index])

theorem addEmoji_keys (lg : GoMap (List Str)) (hlg : (GoMap.keys lg).Nodup) (k : Str) :
    k ∈ GoMap.keys (addEmoji lg) ↔ GoMap.index [] lg k ≠ [] :=
  ((emojiOuter lg [] hlg).2.1 k).trans (by simp [GoMap.keys])

theorem addEmoji_totalLines (lg : GoMap (List Str)) (hlg : (GoMap.keys lg).Nodup) :
    totalLines (addEmoji lg) = totalLines lg :=
  ((emojiOuter lg [] hlg).2.2.2).trans (by simp [totalLines])

theorem index_perm {V : Type} (zero : V) (m m' : GoMap V) (hp : m.Perm m')
    (hn : (GoMap.keys m).Nodup) (k : Str) : GoMap.index zero m k = GoMap.index zero m' k := by
  induction hp with
  | nil => rfl
  | cons e _ ih =>
    obtain ⟨k₀, y⟩ := e
    rw [keys_cons, List.nodup_cons] at hn
    rw [GoMap.index, GoMap.index, ih hn.2]
  | swap e₁ e₂ l =>
    obtain ⟨k₁, y₁⟩ := e₁
    obtain ⟨k₂, y₂⟩ := e₂
    rw [keys_cons, keys_cons, List.nodup_cons, List.mem_cons, not_or] at hn
    rw [GoMap.index, GoMap.index, GoMap.index, GoMap.index]
    by_cases h1 : k₁ = k <;> by_cases h2 : k₂ = k
    · exact absurd (h2.trans h1.symm) hn.1.1
    · rw [if_neg h2, if_pos h1, if_pos h1]
    · rw [if_pos h2, if_neg h1, if_pos h2]
    · rw [if_neg h2, if_neg h1, if_neg h1, if_neg h2]
  | trans hp₁ _ ih₁ ih₂ =>
    rw [ih₁ hn]
    exact ih₂ ((hp₁.map Prod.fst).nodup_iff.mp hn)

/-- The lines `addEmoji` files under a key do not depend on the order in which the map
is ranged over. -/
theorem addEmoji_index_of_perm (lg order : GoMap (List Str)) (hp : order.Perm lg)
    (hlg : (GoMap.keys lg).Nodup) (k : Str) :
    GoMap.index [] (addEmoji order) k = (GoMap.index [] lg k).map emojiSprintf := by
  have hn : (GoMap.keys order).Nodup := (hp.map Prod.fst).nodup_iff.mpr hlg
  rw [addEmoji_index order hn k, index_perm [] order lg hp hn k]

/-! ## Suppression and grouping over a result set -/

theorem flgMsgAdd_of_flag_off (cfg : LoopConfig) (hoff : cfg.ignorelogs ≠ "yes".toList)
    (v : Source) : flgMsgAdd cfg v = true := by
  unfold flgMsgAdd
  apply Bool.eq_true_of_not_eq_false
  intro h
  exact hoff ((foldl_ruleStep _ _ _ _ _).mp h |>.elim (fun hb => absurd hb (by decide))
    (fun ⟨_, _, _, hf⟩ => hf))

theorem msgByHostLoop_panic (cfg : LoopConfig) (hits : List Source)
    (h : ∃ v ∈ hits, renderLine v = .error .panic) :
    msgByHostLoop cfg hits = .error .panic ∧ getOpenSearch cfg hits = .error .panic := by
  have hp := foldlM_hitStep_panic cfg hits [] h
  unfold getOpenSearch msgByHostLoop
  rw [hp]
  exact ⟨rfl, rfl⟩

/-- With the flag off and no line that panics, every hit gives one
line of `msgByHost` and one line of the map returned by `addEmoji`. -/
theorem lines_eq_hits_of_flag_off (cfg : LoopConfig) (hits : List Source)
    (hoff : cfg.ignorelogs ≠ "yes".toList) (h : ∀ v ∈ hits, ∃ s, renderLine v = .ok s) :
    ∃ m, msgByHostLoop cfg hits = .ok m ∧ totalLines m = hits.length ∧
      getOpenSearch cfg hits = .ok (addEmoji m) ∧ totalLines (addEmoji m) = hits.length := by
  obtain ⟨m, hm, _, _, hnd, htot⟩ := foldlM_hitStep_ok cfg hits [] h
  have hall : hits.filter (fun v => flgMsgAdd cfg v) = hits := by
    rw [List.filter_eq_self]
    exact fun v _ => flgMsgAdd_of_flag_off cfg hoff v
  have ht : totalLines m = hits.length := by
    rw [htot, hall]
    simp [totalLines]
  have hn : (GoMap.keys m).Nodup := hnd List.nodup_nil
  refine ⟨m, hm, ht, ?_, ?_⟩
  · have hm' : msgByHostLoop cfg hits = .ok m := hm
    unfold getOpenSearch
    rw [hm']
    rfl
  · rw [addEmoji_totalLines m hn, ht]

theorem hstName_of_unknown_host (cfg : LoopConfig) (v : Source)
    (h : v.Host ∉ GoMap.keys cfg.cfgHostIP) : hstName cfg v = [] := by
  unfold hstName
  rw [index_of_not_mem_keys _ _ _ h]

theorem linesFor_eq_map (cfg : LoopConfig) (k : Str) (hits : List Source)
    (rendered : Source → Str) (h : ∀ v ∈ hits, renderLine v = .ok (rendered v)) :
    linesFor cfg k hits =
      (hits.filter (fun v => flgMsgAdd cfg v && decide (hstName cfg v = k))).map rendered := by
  induction hits with
  | nil => rfl
  | cons v hits ih =>
    rw [linesFor_cons_ok cfg k v hits _ (h v (List.mem_cons_self _ _)),
      ih (fun w hw => h w (List.mem_cons_of_mem _ hw)), List.filter_cons]
    by_cases hc : flgMsgAdd cfg v = true ∧ hstName cfg v = k
    · rw [if_pos hc]
      simp [hc.1, hc.2]
    · rw [if_neg hc]
      have : (flgMsgAdd cfg v && decide (hstName cfg v = k)) = false := by
        rw [Bool.and_eq_false_iff]
        by_cases h1 : flgMsgAdd cfg v = true
        · exact Or.inr (by simpa using fun e => hc ⟨h1, e⟩)
        · exact Or.inl (by simpa using h1)
      simp [this]

theorem suffix_emojiSprintf (j : Str) : j <:+ emojiSprintf j := by
  unfold emojiSprintf padRight
  simp only [Nat.zero_sub, List.replicate_zero, List.append_nil]
  exact List.suffix_append _ _

/-- When no line panics, `msgByHost[k]` is the list of the rendered
lines of the hits that are kept and map to `k`, in the order of the result set, and
`addEmoji` returns a map with the same keys and, under each key, the annotated lines in
the same order, each ending with its input line. -/
theorem groups_of_rendered_hits (cfg : LoopConfig) (hits : List Source)
    (rendered : Source → Str) (h : ∀ v ∈ hits, renderLine v = .ok (rendered v)) :
    ∃ m, msgByHostLoop cfg hits = .ok m ∧ getOpenSearch cfg hits = .ok (addEmoji m) ∧
      (∀ k, GoMap.index [] m k =
        (hits.filter (fun v => flgMsgAdd cfg v && decide (hstName cfg v = k))).map rendered) ∧
      (∀ k, k ∈ GoMap.keys (addEmoji m) ↔ k ∈ GoMap.keys m) ∧
      (∀ k, GoMap.index [] (addEmoji m) k = (GoMap.index [] m k).map emojiSprintf) ∧
      (∀ j, j <:+ emojiSprintf j) := by
  have h' : ∀ v ∈ hits, ∃ s, renderLine v = .ok s := fun v hv => ⟨_, h v hv⟩
  obtain ⟨m, hm, hidx, hkeys, hnd, _⟩ := foldlM_hitStep_ok cfg hits [] h'
  have hn : (GoMap.keys m).Nodup := hnd List.nodup_nil
  have hidx' : ∀ k, GoMap.index [] m k = linesFor cfg k hits := by
    intro k
    rw [hidx k]
    rfl
  refine ⟨m, hm, ?_, ?_, ?_, ?_, suffix_emojiSprintf⟩
  · have hm' : msgByHostLoop cfg hits = .ok m := hm
    unfold getOpenSearch
    rw [hm']
    rfl
  · intro k
    rw [hidx' k, linesFor_eq_map cfg k hits rendered h]
  · intro k
    rw [addEmoji_keys m hn k, hkeys k, hidx' k]
    simp [GoMap.keys]
  · exact fun k => addEmoji_index m hn k

/-- C3 fails on the code at a record that makes the rendering panic: with the flag off
and the two hits `hitPlain`, `hitNoSemicolon`, the loop panics at the second hit (an
origin timestamp, `CID=0x`, no semicolon) and no line reaches `addEmoji`. -/
theorem flag_off_panic :
    cfgFlagOff.ignorelogs ≠ "yes".toList ∧
    flgMsgAdd cfgFlagOff hitPlain = true ∧ flgMsgAdd cfgFlagOff hitNoSemicolon = true ∧
    msgByHostLoop cfgFlagOff [hitPlain, hitNoSemicolon] = .error .panic ∧
    getOpenSearch cfgFlagOff [hitPlain, hitNoSemicolon] = .error .panic :=
  ⟨by decide, by decide, by decide, rfl, rfl⟩

/-- C8 fails on the code at a suppressed record whose rendering panics: with the flag
on, `hitNoSemicolon` is suppressed by the rule on `link down`, so the groups of the
claim are `r2` with the line of `hitPlain` and nothing else; the loop renders the line
before it tests the flag and panics. -/
theorem suppressed_hit_panic :
    flgMsgAdd cfgFlagOn hitPlain = true ∧ flgMsgAdd cfgFlagOn hitNoSemicolon = false ∧
    hstName cfgFlagOn hitPlain = "r2".toList ∧
    (∃ line, renderLine hitPlain = .ok line ∧
      linesFor cfgFlagOn "r2".toList [hitPlain, hitNoSemicolon] = [line] ∧
      linesFor cfgFlagOn "r1".toList [hitPlain, hitNoSemicolon] = []) ∧
    msgByHostLoop cfgFlagOn [hitPlain, hitNoSemicolon] = .error .panic ∧
    getOpenSearch cfgFlagOn [hitPlain, hitNoSemicolon] = .error .panic :=
  ⟨by decide, by decide, by decide,
   ⟨lineSprintf "2024-01-02 10:00:01".toList "kernel".toList "OSPF".toList
      "neighbor up".toList, rfl, by decide, by decide⟩, rfl, rfl⟩

end Opensearch
